import Mathlib

/-!
Verification development for the syde577-project utility pair:
a dataset-layout converter (convert_dataset.py) and a validation loop
(lib/validate.py).  Each Python function is shallowly embedded as an
executable Lean definition; filesystem effects of the converter are
modelled by explicit state passing over an output-filesystem record,
and the possibility of OS-level exceptions by an error oracle.
-/

set_option maxHeartbeats 1000000

namespace ConvertDataset

/-- File contents as a byte list. -/
abbrev Bytes := List Nat

/-- A regular file in the source tree: a name and its byte content. -/
structure SrcFile where
  name : String
  content : Bytes
deriving DecidableEq, Repr

/-- One candidate model directory of the source tree.  `hasScreenshots`
models `(model_dir / "screenshots").exists()`; `screenshots` are the entries
of that directory (in iteration order); `hasModels` models
`(model_dir / "models").exists()` and `modelsFiles` the entries of the
`models` subdirectory in iteration order. -/
structure ModelDir where
  name : String
  hasScreenshots : Bool
  screenshots : List SrcFile
  hasModels : Bool
  modelsFiles : List SrcFile
deriving DecidableEq, Repr

/-- An immediate child of the source directory: a subdirectory or a plain
file (the latter is ignored by the converter's `d.is_dir()` filter). -/
inductive SrcEntry where
  | dir (d : ModelDir)
  | file (f : SrcFile)
deriving DecidableEq, Repr

/-- `[d for d in source_path.iterdir() if d.is_dir() and d.name != "__pycache__"]`. -/
def modelDirsOf (src : List SrcEntry) : List ModelDir :=
  src.filterMap fun e =>
    match e with
    | .dir d => if d.name = "__pycache__" then none else some d
    | .file _ => none

/-- `pathlib.PurePath.suffix`: the extension from the last dot of the name,
provided that dot is neither the first nor the last character. -/
def pathSuffix (name : String) : String :=
  let cs := name.toList
  match cs.reverse.findIdx? (fun c => c = '.') with
  | none => ""
  | some k =>
    let i := cs.length - 1 - k
    if 0 < i ∧ i < cs.length - 1 then String.mk (cs.drop i) else ""

/-- Character-level suffix test: whether `name` ends with `suffix` (the
effect of the `*.png` glob pattern on a file name). -/
def nameEndsWith (name suffix : String) : Bool :=
  List.isSuffixOf suffix.toList name.toList

/-- The files produced by `screenshots_dir.glob("*.png")`: the entries of
the screenshots directory whose name ends in `.png`. -/
def pngs (m : ModelDir) : List SrcFile :=
  m.screenshots.filter fun f => nameEndsWith f.name ".png"

/-- The `binvox_file` search: iterate over the `models` directory (when it
exists) and keep the first entry whose suffix is `.binvox`. -/
def findBinvox (m : ModelDir) : Option SrcFile :=
  if m.hasModels then
    m.modelsFiles.find? fun f => pathSuffix f.name = ".binvox"
  else
    none

/-- A model directory passes both checks of the conversion loop. -/
def convertible (m : ModelDir) : Bool :=
  m.hasScreenshots && (findBinvox m).isSome

/-- A path in the output tree, relative to the two category-scoped roots
`<output>/ShapeNetRendering/<category>` and `<output>/ShapeNetVox32/<category>`.
`rendering id f` is `<rendering_root>/<id>/rendering/<f>`, `voxel id f` is
`<voxel_root>/<id>/<f>`. -/
inductive OutPath where
  | rendering (modelId : String) (fileName : String)
  | voxel (modelId : String) (fileName : String)
deriving DecidableEq, Repr

/-- A directory in the output tree.  `renderingModel id` stands for
`<rendering_root>/<id>/rendering` (with its parent), `voxelModel id` for
`<voxel_root>/<id>`. -/
inductive OutDir where
  | renderingRoot
  | voxelRoot
  | renderingModel (modelId : String)
  | voxelModel (modelId : String)
deriving DecidableEq, Repr

/-- The mutable output filesystem: the set of created directories and the
files present, as an association list from path to content. -/
structure OutFS where
  dirs : List OutDir
  files : List (OutPath × Bytes)
deriving DecidableEq, Repr

def emptyFS : OutFS := ⟨[], []⟩

/-- `dst.exists()` on the output tree. -/
def fileExists (fs : OutFS) (p : OutPath) : Bool :=
  fs.files.any fun e => e.1 = p

/-- `dst.unlink()`: remove the entry at `p`. -/
def removeFile (fs : OutFS) (p : OutPath) : OutFS :=
  { fs with files := fs.files.filter fun e => ¬ e.1 = p }

/-- Create (or overwrite) the file at `p` with content `c`.  Both a
successful `os.symlink(src, dst)` (the link resolves to the source bytes)
and `shutil.copy2(src, dst)` have this effect on observable content. -/
def setFile (fs : OutFS) (p : OutPath) (c : Bytes) : OutFS :=
  { fs with files := (p, c) :: fs.files.filter fun e => ¬ e.1 = p }

/-- The content visible at `p`, if any. -/
def lookupFile (fs : OutFS) (p : OutPath) : Option Bytes :=
  (fs.files.find? fun e => e.1 = p).map Prod.snd

/-- `mkdir(parents=True, exist_ok=True)`: record the directory. -/
def addDir (fs : OutFS) (d : OutDir) : OutFS :=
  if d ∈ fs.dirs then fs else { fs with dirs := d :: fs.dirs }

/-- Python exception classes relevant here: `OSError` (and its subclasses,
which `except OSError` catches) versus any other exception. -/
inductive PyErr where
  | osError
  | otherError
deriving DecidableEq, Repr

/-- Error oracle for OS-level operations: for each operation and path it
says whether the operation raises, and which class of exception. -/
structure FsEnv where
  mkdirErr : OutDir → Option PyErr
  listErr : Option PyErr
  unlinkErr : OutPath → Option PyErr
  symlinkErr : OutPath → Option PyErr
  copyErr : OutPath → Option PyErr

/-- The oracle of a normally behaving filesystem: no operation raises. -/
def cleanEnv : FsEnv :=
  ⟨fun _ => none, none, fun _ => none, fun _ => none, fun _ => none⟩

/-- Messages printed inside the conversion loop: a per-model skip report
(`[idx1/total] SKIP model_id: reason`, with `idx1` the 1-based index) and
the periodic progress report (`[idx1/total] Converted conv models...`). -/
inductive ConvEvent where
  | skip (idx1 : Nat) (total : Nat) (modelId : String) (reason : String)
  | progress (idx1 : Nat) (total : Nat) (conv : Nat)
deriving DecidableEq, Repr

/-- The loop state: output filesystem, the two counters, and the log of
printed per-model messages. -/
structure ConvState where
  fs : OutFS
  converted : Nat
  skipped : Nat
  events : List ConvEvent
deriving DecidableEq, Repr

/-- The `try: if dst.exists(): dst.unlink(); os.symlink(src, dst)
except OSError: shutil.copy2(src, dst)` block, for destination `dst` whose
source has content `c`.  An `OSError` raised anywhere inside the `try`
block is caught and answered by the copy fallback; any other exception,
and any exception of the fallback itself, propagates. -/
def linkOrCopy (env : FsEnv) (fs : OutFS) (dst : OutPath) (c : Bytes) :
    Except PyErr OutFS :=
  let tryRes : Except PyErr OutFS :=
    if fileExists fs dst then
      match env.unlinkErr dst with
      | some e => .error e
      | none =>
        match env.symlinkErr dst with
        | some e => .error e
        | none => .ok (setFile (removeFile fs dst) dst c)
    else
      match env.symlinkErr dst with
      | some e => .error e
      | none => .ok (setFile fs dst c)
  match tryRes with
  | .ok fs' => .ok fs'
  | .error .osError =>
    match env.copyErr dst with
    | some e => .error e
    | none => .ok (setFile fs dst c)
  | .error .otherError => .error .otherError

/-- `d.mkdir(parents=True, exist_ok=True)` under the error oracle. -/
def mkdirP (env : FsEnv) (fs : OutFS) (d : OutDir) : Except PyErr OutFS :=
  match env.mkdirErr d with
  | some e => .error e
  | none => .ok (addDir fs d)

/-- The `for img_file in screenshots_dir.glob("*.png")` loop for model id
`mid`: link or copy each file in order, propagating any uncaught
exception. -/
def linkAll (env : FsEnv) (mid : String) :
    List SrcFile → OutFS → Except PyErr OutFS
  | [], fs => .ok fs
  | f :: rest, fs =>
    match linkOrCopy env fs (.rendering mid f.name) f.content with
    | .error e => .error e
    | .ok fs' => linkAll env mid rest fs'

/-- One iteration of the conversion loop, for the candidate at 0-based
index `idx` out of `total`.  Mirrors lines 55-112 of convert_dataset.py:
the binvox search runs first, then the screenshots check, then the binvox
check, then directory creation, the per-png link-or-copy loop, the voxel
link-or-copy, the counter update and the periodic progress message. -/
def processModel (env : FsEnv) (total idx : Nat) (st : ConvState)
    (m : ModelDir) : Except PyErr ConvState :=
  let binvox := findBinvox m
  if ¬ m.hasScreenshots then
    .ok { st with
      skipped := st.skipped + 1
      events := st.events ++ [.skip (idx + 1) total m.name "no screenshots directory"] }
  else
    match binvox with
    | none =>
      .ok { st with
        skipped := st.skipped + 1
        events := st.events ++ [.skip (idx + 1) total m.name "no binvox file"] }
    | some bv =>
      match mkdirP env st.fs (.renderingModel m.name) with
      | .error e => .error e
      | .ok fs1 =>
        match mkdirP env fs1 (.voxelModel m.name) with
        | .error e => .error e
        | .ok fs2 =>
          match linkAll env m.name (pngs m) fs2 with
          | .error e => .error e
          | .ok fs3 =>
            match linkOrCopy env fs3 (.voxel m.name "model.binvox") bv.content with
            | .error e => .error e
            | .ok fs4 =>
              .ok { fs := fs4
                    converted := st.converted + 1
                    skipped := st.skipped
                    events := st.events ++
                      (if (idx + 1) % 50 = 0 then
                        [ConvEvent.progress (idx + 1) total (st.converted + 1)] else []) }

/-- The `for idx, model_dir in enumerate(model_dirs)` loop. -/
def runModels (env : FsEnv) (total : Nat) :
    Nat → List ModelDir → ConvState → Except PyErr ConvState
  | _, [], st => .ok st
  | idx, m :: rest, st =>
    match processModel env total idx st m with
    | .error e => .error e
    | .ok st' => runModels env total (idx + 1) rest st'

/-- `convert_dataset(source_dir, output_dir, category_id)`: create the two
category roots, enumerate the source directory, and run the loop starting
from counters at zero and an empty message log. -/
def convert_dataset (env : FsEnv) (src : List SrcEntry) (fs0 : OutFS) :
    Except PyErr ConvState :=
  match mkdirP env fs0 .renderingRoot with
  | .error e => .error e
  | .ok fs1 =>
    match mkdirP env fs1 .voxelRoot with
    | .error e => .error e
    | .ok fs2 =>
      match env.listErr with
      | some e => .error e
      | none =>
        let ms := modelDirsOf src
        runModels env ms.length 0 ms ⟨fs2, 0, 0, []⟩

/-! ### Pure shadow of a successful run

When no exception propagates, the state transformation performed by the
loop does not depend on which branch (symlink or copy fallback) realised
each file: both set the destination's content to the source's content.
`applyModels` is that pure transformation; `runModels_ok_eq` below shows a
successful `runModels` computes it. -/

/-- The `(destination, content)` writes a convertible model performs, in
program order: one per `*.png` screenshot, then the voxel file renamed to
`model.binvox`. -/
def modelWrites (m : ModelDir) : List (OutPath × Bytes) :=
  if ¬ m.hasScreenshots then []
  else
    match findBinvox m with
    | none => []
    | some bv =>
      ((pngs m).map fun f => (OutPath.rendering m.name f.name, f.content)) ++
        [(OutPath.voxel m.name "model.binvox", bv.content)]

/-- Apply a list of writes in order. -/
def applyWrites (fs : OutFS) (ws : List (OutPath × Bytes)) : OutFS :=
  ws.foldl (fun fs w => setFile fs w.1 w.2) fs

/-- Pure effect of one loop iteration (error-free case). -/
def applyModel (total idx : Nat) (st : ConvState) (m : ModelDir) : ConvState :=
  if ¬ m.hasScreenshots then
    { st with
      skipped := st.skipped + 1
      events := st.events ++ [.skip (idx + 1) total m.name "no screenshots directory"] }
  else
    match findBinvox m with
    | none =>
      { st with
        skipped := st.skipped + 1
        events := st.events ++ [.skip (idx + 1) total m.name "no binvox file"] }
    | some _ =>
      let fs := addDir (addDir st.fs (.renderingModel m.name)) (.voxelModel m.name)
      { fs := applyWrites fs (modelWrites m)
        converted := st.converted + 1
        skipped := st.skipped
        events := st.events ++
          (if (idx + 1) % 50 = 0 then [ConvEvent.progress (idx + 1) total (st.converted + 1)] else []) }

/-- Pure effect of the whole loop (error-free case). -/
def applyModels (total : Nat) : Nat → List ModelDir → ConvState → ConvState
  | _, [], st => st
  | idx, m :: rest, st => applyModels total (idx + 1) rest (applyModel total idx st m)

/-- The last content written to path `p` by a list of writes, if any. -/
def writeLookup : List (OutPath × Bytes) → OutPath → Option Bytes
  | [], _ => none
  | w :: ws, p =>
    match writeLookup ws p with
    | some c => some c
    | none => if w.1 = p then some w.2 else none

/-- Left-biased choice on options. -/
def orElseO {α : Type} (a b : Option α) : Option α :=
  match a with
  | some x => some x
  | none => b

/-- All writes of a run, in program order. -/
def allWrites : List ModelDir → List (OutPath × Bytes)
  | [] => []
  | m :: rest => modelWrites m ++ allWrites rest

/-- The model id a path belongs to. -/
def pathModelId : OutPath → String
  | .rendering i _ => i
  | .voxel i _ => i

/-- The first exception raised inside the `try` block of the link step (the
`unlink` of an existing destination, then the `symlink`), if any. -/
def tryErr (env : FsEnv) (fs : OutFS) (dst : OutPath) : Option PyErr :=
  if fileExists fs dst then
    match env.unlinkErr dst with
    | some e => some e
    | none => env.symlinkErr dst
  else env.symlinkErr dst

/-- The messages one loop iteration prints, given the converted count
before the iteration. -/
def modelEvents (total idx conv : Nat) (m : ModelDir) : List ConvEvent :=
  if ¬ m.hasScreenshots then [.skip (idx + 1) total m.name "no screenshots directory"]
  else
    match findBinvox m with
    | none => [.skip (idx + 1) total m.name "no binvox file"]
    | some _ =>
      if (idx + 1) % 50 = 0 then [.progress (idx + 1) total (conv + 1)] else []

/-- The messages the loop prints from index `idx` on, given the converted
count accumulated so far. -/
def eventsOf (total : Nat) : Nat → Nat → List ModelDir → List ConvEvent
  | _, _, [] => []
  | idx, conv, m :: rest =>
    modelEvents total idx conv m ++
      eventsOf total (idx + 1) (conv + (if convertible m then 1 else 0)) rest

/-- The 1-based candidate index a printed message refers to. -/
def eventIdx1 : ConvEvent → Nat
  | .skip i _ _ _ => i
  | .progress i _ _ => i

/-- Whether a printed message is the periodic progress message. -/
def isProgressEv : ConvEvent → Bool
  | .progress _ _ _ => true
  | _ => false

/-- Source tree for the C6 counterexample: fifty candidate directories,
all lacking a screenshots directory. -/
def c6src : List SrcEntry :=
  (List.range 50).map fun i =>
    SrcEntry.dir ⟨String.append "m" (toString i), false, [], false, []⟩

/-- Error oracle for the C7 counterexample: `unlink` of the pre-existing
destination raises `OSError`; no other operation raises. -/
def c7env : FsEnv :=
  ⟨fun _ => none, none,
   fun p => if p = OutPath.rendering "A" "0.png" then some .osError else none,
   fun _ => none, fun _ => none⟩

/-- Output tree for the C7 counterexample: the destination of the single
screenshot already exists with stale content. -/
def c7fs : OutFS := ⟨[], [(OutPath.rendering "A" "0.png", [9])]⟩

/-- Source tree for the C7 counterexample: one convertible model. -/
def c7src : List SrcEntry :=
  [.dir ⟨"A", true, [⟨"0.png", [1]⟩], true, [⟨"m.binvox", [7]⟩]⟩]

/-! ### Concrete witness instances (the spec's example scenario: model A
convertible, model B lacking a voxel file, model C lacking screenshots). -/

def wA : ModelDir :=
  ⟨"A", true, [⟨"0.png", [1]⟩, ⟨"1.png", [2]⟩, ⟨"notes.txt", [9]⟩], true,
   [⟨"m.solid.binvox", [7]⟩]⟩

def wB : ModelDir := ⟨"B", true, [⟨"0.png", [3]⟩], true, [⟨"m.obj", [8]⟩]⟩

def wC : ModelDir := ⟨"C", false, [], false, []⟩

def wD : ModelDir := ⟨"D", true, [], false, []⟩

def wsrc : List SrcEntry := [.dir wA, .dir wB, .dir wC, .file ⟨"readme", []⟩]

/-- The state a clean run over `wsrc` ends in. -/
def wst : ConvState :=
  ⟨⟨[OutDir.voxelModel "A", OutDir.renderingModel "A",
     OutDir.voxelRoot, OutDir.renderingRoot],
    [(OutPath.voxel "A" "model.binvox", [7]),
     (OutPath.rendering "A" "1.png", [2]),
     (OutPath.rendering "A" "0.png", [1])]⟩,
   1, 2,
   [ConvEvent.skip 2 3 "B" "no binvox file",
    ConvEvent.skip 3 3 "C" "no screenshots directory"]⟩

end ConvertDataset

namespace ValidateLib

/-! ### Shallow embedding of lib/validate.py

Tensors of the deep-learning framework are modelled by a record carrying
the observable attributes the validator manipulates: a shape, a device,
whether the tensor still carries gradient history, and an abstract value.
The externally supplied stages (encoder, recurrent updater, decoder, loss,
IOU metric) and tensor primitives (slicing+squeeze, device moves, exp,
host transfer) are opaque parameters gathered in `VModel`. -/

/-- A framework tensor with abstract value of type `α`. -/
structure VTensor (α : Type) where
  shape : List Nat
  device : String
  hasGrad : Bool
  val : α
deriving DecidableEq, Repr

/-- `t.detach_()`: strip gradient history in place; value, shape and
device are unchanged. -/
def vdetach {α : Type} (t : VTensor α) : VTensor α := { t with hasGrad := false }

/-- `t.to(device)`. -/
def vto {α : Type} (t : VTensor α) (d : String) : VTensor α := { t with device := d }

/-- `torch.zeros(shape)`: a fresh all-zero tensor on the CPU with no
gradient history; `z` is the all-zero value of the abstract value type. -/
def vzeros {α : Type} (z : α) (s : List Nat) : VTensor α := ⟨s, "cpu", false, z⟩

/-- The hidden state: a pair of tensors (3D-LSTM hidden and cell state). -/
abbrev Hidden (α : Type) := VTensor α × VTensor α

/-- `hidden[0].detach_(); hidden[1].detach_()`. -/
def detachPair {α : Type} (h : Hidden α) : Hidden α := (vdetach h.1, vdetach h.2)

/-- One batch yielded by the loader: `data["imgs"]` as the list of its
per-view slices (index 1 of the shape is the view count) and
`data["label"]`. -/
structure VBatch (Raw Lbl : Type) where
  imgs : List Raw
  label : Lbl
deriving DecidableEq, Repr

/-- The validation loader: a batch-size attribute and the yielded batches
in iteration order. -/
structure VLoader (Raw Lbl : Type) where
  batchSize : Nat
  batches : List (VBatch Raw Lbl)

/-- The opaque collaborators of the validator.  `hzero` is the all-zero
hidden value produced by `torch.zeros`; `squeezeTo r d` is
`torch.squeeze(raw_slice).to(device)`; `nll` is `NLLLoss()(out, lbl).item()`;
`lblTo` is `label.to(device)`; `texp` is `torch.exp`; `outNp` is
`.detach().cpu().numpy()` on the output; `lblNp` is `label.numpy()`;
`iouStats o l t` is `calc_mean_IOU(o, l, t)` viewed as an index-to-value
tuple, of which component 5 is consumed. -/
structure VModel (Raw Img Emb H Out Lbl OutA LblA : Type) where
  hzero : H
  squeezeTo : Raw → String → Img
  encoder : Img → Emb
  convrnn : Emb → Hidden H → Hidden H
  decoder : VTensor H → Out
  nll : Out → Lbl → ℚ
  lblTo : Lbl → String → Lbl
  texp : Out → Out
  outNp : Out → OutA
  lblNp : Lbl → LblA
  iouStats : OutA → LblA → ℚ → Nat → ℚ

/-- Observable calls made to the three model stages, in order. -/
inductive VEvent (Img Emb H : Type) where
  | encCall (x : Img)
  | rnnCall (e : Emb) (h : Hidden H)
  | decCall (h : VTensor H)
deriving DecidableEq, Repr

variable {Raw Img Emb H Out Lbl OutA LblA : Type}

/-- The inner `for v in range(num_views)` loop, instrumented with the call
trace: each view is squeezed and moved to the device, encoded, and fed with
the current hidden state to the recurrent updater. -/
def viewLoop (M : VModel Raw Img Emb H Out Lbl OutA LblA) (dev : String) :
    List Raw → Hidden H → Hidden H × List (VEvent Img Emb H)
  | [], h => (h, [])
  | r :: rest, h =>
    let cur := M.squeezeTo r dev
    let e := M.encoder cur
    let h' := M.convrnn e h
    let res := viewLoop M dev rest h'
    (res.1, VEvent.encCall cur :: VEvent.rnnCall e h :: res.2)

/-- One iteration of the batch loop: detach the hidden pair in place, run
the view loop, decode the first hidden component, compute the NLL loss and
the IOU at threshold 0.4 (component 5 of the metric).  Returns the hidden
state carried to the next batch, the batch's loss and IOU, and the call
trace of the batch. -/
def batchStep (M : VModel Raw Img Emb H Out Lbl OutA LblA) (dev : String)
    (h : Hidden H) (b : VBatch Raw Lbl) :
    Hidden H × ℚ × ℚ × List (VEvent Img Emb H) :=
  let hd := detachPair h
  let res := viewLoop M dev b.imgs hd
  let out := M.decoder res.1.1
  let loss := M.nll out (M.lblTo b.label dev)
  let iou := M.iouStats (M.outNp (M.texp out)) (M.lblNp b.label) (2/5 : ℚ) 5
  (res.1, loss, iou, res.2 ++ [VEvent.decCall res.1.1])

/-- The batch loop: thread the hidden state through all batches, collecting
the per-batch losses, IOUs and call traces in order. -/
def runBatches (M : VModel Raw Img Emb H Out Lbl OutA LblA) (dev : String) :
    List (VBatch Raw Lbl) → Hidden H →
    Hidden H × List ℚ × List ℚ × List (List (VEvent Img Emb H))
  | [], h => (h, [], [], [])
  | b :: rest, h =>
    let s := batchStep M dev h b
    let t := runBatches M dev rest s.1
    (t.1, s.2.1 :: t.2.1, s.2.2.1 :: t.2.2.1, s.2.2.2 :: t.2.2.2)

/-- `np.mean` of a list of rationals (the list is nonempty in every use). -/
def npMean (l : List ℚ) : ℚ := l.sum / l.length

/-- The initial hidden state of `validate`: two `torch.zeros((B,128,4,4,4))`
tensors moved to the device. -/
def initHidden (M : VModel Raw Img Emb H Out Lbl OutA LblA) (B : Nat)
    (dev : String) : Hidden H :=
  (vto (vzeros M.hzero [B, 128, 4, 4, 4]) dev,
   vto (vzeros M.hzero [B, 128, 4, 4, 4]) dev)

/-- `validate(val_loader, encoder, convrnn, decoder, device=None)`:
default the device to the CPU, initialize the hidden state, run all
batches, and return the means of the recorded losses and IOUs. -/
def validate (M : VModel Raw Img Emb H Out Lbl OutA LblA)
    (loader : VLoader Raw Lbl) (device : Option String) : ℚ × ℚ :=
  let dev := device.getD "cpu"
  let h0 := initHidden M loader.batchSize dev
  let t := runBatches M dev loader.batches h0
  (npMean t.2.1, npMean t.2.2.1)

/-! ### Independent per-batch descriptions, used to state the claims. -/

/-- Folding the view updates over a list of views: the hidden state after
consuming those views from hidden state `h`. -/
def viewFold (M : VModel Raw Img Emb H Out Lbl OutA LblA) (dev : String)
    (h : Hidden H) (vs : List Raw) : Hidden H :=
  vs.foldl (fun h r => M.convrnn (M.encoder (M.squeezeTo r dev)) h) h

/-- The hidden state a batch carries out, starting from carried-in state
`h`: detach, then fold all views. -/
def batchHidden (M : VModel Raw Img Emb H Out Lbl OutA LblA) (dev : String)
    (h : Hidden H) (b : VBatch Raw Lbl) : Hidden H :=
  viewFold M dev (detachPair h) b.imgs

/-- The decoder output of a batch. -/
def batchOut (M : VModel Raw Img Emb H Out Lbl OutA LblA) (dev : String)
    (h : Hidden H) (b : VBatch Raw Lbl) : Out :=
  M.decoder (batchHidden M dev h b).1

/-- The per-batch loss `L_i`. -/
def batchLoss (M : VModel Raw Img Emb H Out Lbl OutA LblA) (dev : String)
    (h : Hidden H) (b : VBatch Raw Lbl) : ℚ :=
  M.nll (batchOut M dev h b) (M.lblTo b.label dev)

/-- The per-batch IOU `I_i`: component 5 of the metric at threshold 0.4 on
the exponentiated decoder output. -/
def batchIou (M : VModel Raw Img Emb H Out Lbl OutA LblA) (dev : String)
    (h : Hidden H) (b : VBatch Raw Lbl) : ℚ :=
  M.iouStats (M.outNp (M.texp (batchOut M dev h b))) (M.lblNp b.label) (2/5 : ℚ) 5

/-- The list `L_1..L_N` of per-batch losses, hidden state threaded. -/
def lossList (M : VModel Raw Img Emb H Out Lbl OutA LblA) (dev : String) :
    List (VBatch Raw Lbl) → Hidden H → List ℚ
  | [], _ => []
  | b :: rest, h => batchLoss M dev h b :: lossList M dev rest (batchHidden M dev h b)

/-- The list `I_1..I_N` of per-batch IOUs, hidden state threaded. -/
def iouList (M : VModel Raw Img Emb H Out Lbl OutA LblA) (dev : String) :
    List (VBatch Raw Lbl) → Hidden H → List ℚ
  | [], _ => []
  | b :: rest, h => batchIou M dev h b :: iouList M dev rest (batchHidden M dev h b)

/-- The hidden state carried into batch `i` (0-based): the initial hidden
state (for batch size `B`) threaded through the first `i` batches. -/
def hiddenBefore (M : VModel Raw Img Emb H Out Lbl OutA LblA) (dev : String)
    (B : Nat) (bs : List (VBatch Raw Lbl)) (i : Nat) : Hidden H :=
  (bs.take i).foldl (batchHidden M dev) (initHidden M B dev)

/-- The call trace of one batch. -/
def batchEvents (M : VModel Raw Img Emb H Out Lbl OutA LblA) (dev : String)
    (h : Hidden H) (b : VBatch Raw Lbl) : List (VEvent Img Emb H) :=
  (batchStep M dev h b).2.2.2

/-- Recognizers for the three call kinds. -/
def isEncEv : VEvent Img Emb H → Bool
  | .encCall _ => true
  | _ => false

def isRnnEv : VEvent Img Emb H → Bool
  | .rnnCall _ _ => true
  | _ => false

def isDecEv : VEvent Img Emb H → Bool
  | .decCall _ => true
  | _ => false

/-! ### Concrete witness instances for the validator. -/

/-- A concrete model stack over natural-number tensors. -/
def wM : VModel Nat Nat Nat Nat Nat Nat Nat Nat :=
  ⟨0,
   fun r _ => r + 1,
   fun x => x * 2,
   fun e h => ({ h.1 with val := h.1.val + e }, { h.2 with val := h.2.val + 1 }),
   fun t => t.val,
   fun o l => (o : ℚ) + l,
   fun l _ => l,
   fun o => o + 3,
   fun o => o,
   fun l => l,
   fun oa la t n => (oa : ℚ) + la + t + n⟩

/-- A concrete loader: batch size 4, two batches of two views and one view. -/
def wloader : VLoader Nat Nat := ⟨4, [⟨[10, 20], 7⟩, ⟨[30], 8⟩]⟩

end ValidateLib

namespace ConvertDataset

theorem files_addDir (fs : OutFS) (d : OutDir) : (addDir fs d).files = fs.files := by
  unfold addDir; split <;> rfl

theorem dirs_setFile (fs : OutFS) (q : OutPath) (c : Bytes) :
    (setFile fs q c).dirs = fs.dirs := rfl

theorem lookupFile_addDir (fs : OutFS) (d : OutDir) (p : OutPath) :
    lookupFile (addDir fs d) p = lookupFile fs p := by
  unfold lookupFile; rw [files_addDir]

theorem find?_filter_ne (l : List (OutPath × Bytes)) (p q : OutPath) (hpq : p ≠ q) :
    (l.filter fun e => ¬ e.1 = q).find? (fun e => e.1 = p) =
      l.find? (fun e => e.1 = p) := by
  induction l with
  | nil => rfl
  | cons e l ih =>
    by_cases he : e.1 = q
    · have hep : ¬ (e.1 = p) := by rw [he]; exact fun h => hpq h.symm
      rw [List.filter_cons_of_neg (by simpa using he),
        List.find?_cons_of_neg _ (by simpa using hep), ih]
    · rw [List.filter_cons_of_pos (by simpa using he)]
      by_cases hep : e.1 = p
      · rw [List.find?_cons_of_pos _ (by simpa using hep),
          List.find?_cons_of_pos _ (by simpa using hep)]
      · rw [List.find?_cons_of_neg _ (by simpa using hep),
          List.find?_cons_of_neg _ (by simpa using hep), ih]

theorem lookupFile_setFile (fs : OutFS) (q : OutPath) (c : Bytes) (p : OutPath) :
    lookupFile (setFile fs q c) p = if p = q then some c else lookupFile fs p := by
  unfold lookupFile setFile
  by_cases hpq : p = q
  · subst hpq
    rw [if_pos rfl, List.find?_cons_of_pos _ (by simp)]
    rfl
  · have hqp : ¬ (q = p) := fun h => hpq h.symm
    rw [if_neg hpq, List.find?_cons_of_neg _ (by simpa using hqp),
      find?_filter_ne fs.files p q hpq]

theorem setFile_removeFile (fs : OutFS) (q : OutPath) (c : Bytes) :
    setFile (removeFile fs q) q c = setFile fs q c := by
  unfold setFile removeFile
  simp [List.filter_filter]

theorem linkOrCopy_char (env : FsEnv) (fs : OutFS) (dst : OutPath) (c : Bytes) :
    linkOrCopy env fs dst c =
      match tryErr env fs dst with
      | none => .ok (setFile fs dst c)
      | some .osError =>
        match env.copyErr dst with
        | some e => .error e
        | none => .ok (setFile fs dst c)
      | some .otherError => .error .otherError := by
  unfold linkOrCopy tryErr
  by_cases hex : fileExists fs dst = true
  · simp only [hex, if_true]
    cases hu : env.unlinkErr dst with
    | some e => cases e <;> rfl
    | none =>
      cases hs : env.symlinkErr dst with
      | some e => cases e <;> rfl
      | none => simp [setFile_removeFile]
  · simp only [Bool.not_eq_true] at hex
    simp only [hex, Bool.false_eq_true, if_false]
    cases hs : env.symlinkErr dst with
    | some e => cases e <;> rfl
    | none => rfl

theorem linkOrCopy_ok (env : FsEnv) (fs : OutFS) (dst : OutPath) (c : Bytes)
    (fs' : OutFS) (h : linkOrCopy env fs dst c = .ok fs') :
    fs' = setFile fs dst c := by
  rw [linkOrCopy_char] at h
  cases ht : tryErr env fs dst with
  | none => rw [ht] at h; exact (Except.ok.inj h).symm
  | some e =>
    cases e with
    | osError =>
      rw [ht] at h
      cases hc : env.copyErr dst with
      | none => rw [hc] at h; exact (Except.ok.inj h).symm
      | some e2 => rw [hc] at h; exact absurd h (by simp)
    | otherError => rw [ht] at h; exact absurd h (by simp)

theorem mkdirP_ok (env : FsEnv) (fs : OutFS) (d : OutDir) (fs' : OutFS)
    (h : mkdirP env fs d = .ok fs') : fs' = addDir fs d := by
  unfold mkdirP at h
  cases he : env.mkdirErr d with
  | none => rw [he] at h; exact (Except.ok.inj h).symm
  | some e => rw [he] at h; exact absurd h (by simp)

theorem linkAll_ok (env : FsEnv) (mid : String) :
    ∀ (fl : List SrcFile) (fs fs' : OutFS),
      linkAll env mid fl fs = .ok fs' →
      fs' = applyWrites fs (fl.map fun f => (OutPath.rendering mid f.name, f.content)) := by
  intro fl
  induction fl with
  | nil => intro fs fs' h; exact (Except.ok.inj h).symm
  | cons f rest ih =>
    intro fs fs' h
    unfold linkAll at h
    cases h1 : linkOrCopy env fs (.rendering mid f.name) f.content with
    | error e => rw [h1] at h; exact absurd h (by simp)
    | ok fs1 =>
      rw [h1] at h
      have := ih fs1 fs' h
      rw [this, linkOrCopy_ok env fs _ _ fs1 h1]
      rfl

theorem processModel_ok (env : FsEnv) (total idx : Nat) (st : ConvState)
    (m : ModelDir) (st' : ConvState) (h : processModel env total idx st m = .ok st') :
    st' = applyModel total idx st m := by
  unfold processModel at h
  unfold applyModel
  by_cases hs : m.hasScreenshots = true
  · rw [if_neg (by simp [hs])] at h ⊢
    revert h
    cases hb : findBinvox m with
    | none => intro h; exact (Except.ok.inj h).symm
    | some bv =>
      intro h
      simp only [] at h ⊢
      cases h1 : mkdirP env st.fs (.renderingModel m.name) with
      | error e => rw [h1] at h; exact absurd h (by simp)
      | ok fs1 =>
        rw [h1] at h
        simp only [] at h
        cases h2 : mkdirP env fs1 (.voxelModel m.name) with
        | error e => rw [h2] at h; exact absurd h (by simp)
        | ok fs2 =>
          rw [h2] at h
          simp only [] at h
          cases h3 : linkAll env m.name (pngs m) fs2 with
          | error e => rw [h3] at h; exact absurd h (by simp)
          | ok fs3 =>
            rw [h3] at h
            simp only [] at h
            cases h4 : linkOrCopy env fs3 (.voxel m.name "model.binvox") bv.content with
            | error e => rw [h4] at h; exact absurd h (by simp)
            | ok fs4 =>
              rw [h4] at h
              simp only [] at h
              have e1 := mkdirP_ok env st.fs _ fs1 h1
              have e2 := mkdirP_ok env fs1 _ fs2 h2
              have e3 := linkAll_ok env m.name (pngs m) fs2 fs3 h3
              have e4 := linkOrCopy_ok env fs3 _ _ fs4 h4
              have hst : st' = ConvState.mk fs4 (st.converted + 1) st.skipped
                  (st.events ++
                    (if (idx + 1) % 50 = 0 then
                      [ConvEvent.progress (idx + 1) total (st.converted + 1)] else [])) :=
                (Except.ok.inj h).symm
              rw [hst, e4, e3, e2, e1]
              simp [applyWrites, modelWrites, hs, hb, List.foldl_append]
  · rw [if_pos (by simp [Bool.not_eq_true] at hs ⊢; exact hs)] at h ⊢
    exact (Except.ok.inj h).symm

theorem runModels_ok (env : FsEnv) (total : Nat) :
    ∀ (l : List ModelDir) (idx : Nat) (st st' : ConvState),
      runModels env total idx l st = .ok st' →
      st' = applyModels total idx l st := by
  intro l
  induction l with
  | nil => intro idx st st' h; exact (Except.ok.inj h).symm
  | cons m rest ih =>
    intro idx st st' h
    unfold runModels at h
    cases h1 : processModel env total idx st m with
    | error e => rw [h1] at h; exact absurd h (by simp)
    | ok st1 =>
      rw [h1] at h
      have := ih (idx + 1) st1 st' h
      rw [this, processModel_ok env total idx st m st1 h1]
      rfl

theorem convert_dataset_ok (env : FsEnv) (src : List SrcEntry) (fs0 : OutFS)
    (st : ConvState) (h : convert_dataset env src fs0 = .ok st) :
    st = applyModels (modelDirsOf src).length 0 (modelDirsOf src)
      ⟨addDir (addDir fs0 .renderingRoot) .voxelRoot, 0, 0, []⟩ := by
  unfold convert_dataset at h
  cases h1 : mkdirP env fs0 .renderingRoot with
  | error e => rw [h1] at h; exact absurd h (by simp)
  | ok fs1 =>
    rw [h1] at h
    simp only [] at h
    cases h2 : mkdirP env fs1 .voxelRoot with
    | error e => rw [h2] at h; exact absurd h (by simp)
    | ok fs2 =>
      rw [h2] at h
      simp only [] at h
      cases h3 : env.listErr with
      | some e => rw [h3] at h; exact absurd h (by simp)
      | none =>
        rw [h3] at h
        simp only [] at h
        have := runModels_ok env (modelDirsOf src).length (modelDirsOf src) 0 _ st h
        rw [this, mkdirP_ok env fs1 _ fs2 h2, mkdirP_ok env fs0 _ fs1 h1]

theorem orElseO_none_right {α : Type} (a : Option α) : orElseO a none = a := by
  cases a <;> rfl

theorem orElseO_assoc {α : Type} (a b c : Option α) :
    orElseO a (orElseO b c) = orElseO (orElseO a b) c := by
  cases a <;> rfl

theorem writeLookup_cons (w : OutPath × Bytes) (ws : List (OutPath × Bytes))
    (p : OutPath) :
    writeLookup (w :: ws) p =
      match writeLookup ws p with
      | some c => some c
      | none => if w.1 = p then some w.2 else none := rfl

theorem writeLookup_append (ws1 ws2 : List (OutPath × Bytes)) (p : OutPath) :
    writeLookup (ws1 ++ ws2) p = orElseO (writeLookup ws2 p) (writeLookup ws1 p) := by
  induction ws1 with
  | nil => simp [writeLookup, orElseO_none_right]
  | cons w ws1 ih =>
    rw [List.cons_append, writeLookup_cons, ih, writeLookup_cons]
    cases h2 : writeLookup ws2 p with
    | some c => rfl
    | none =>
      cases h1 : writeLookup ws1 p with
      | some c => rfl
      | none => rfl

theorem writeLookup_eq_none (ws : List (OutPath × Bytes)) (p : OutPath)
    (h : ∀ w ∈ ws, w.1 ≠ p) : writeLookup ws p = none := by
  induction ws with
  | nil => rfl
  | cons w ws ih =>
    unfold writeLookup
    rw [ih fun w hw => h w (List.mem_cons_of_mem _ hw)]
    simp [h w (List.mem_cons_self w ws)]

theorem dirs_applyWrites (ws : List (OutPath × Bytes)) :
    ∀ (fs : OutFS), (applyWrites fs ws).dirs = fs.dirs := by
  induction ws with
  | nil => intro fs; rfl
  | cons w ws ih => intro fs; exact ih (setFile fs w.1 w.2)

theorem lookupFile_applyWrites (ws : List (OutPath × Bytes)) :
    ∀ (fs : OutFS) (p : OutPath),
      lookupFile (applyWrites fs ws) p = orElseO (writeLookup ws p) (lookupFile fs p) := by
  induction ws with
  | nil => intro fs p; rfl
  | cons w ws ih =>
    intro fs p
    show lookupFile (applyWrites (setFile fs w.1 w.2) ws) p = _
    rw [ih, lookupFile_setFile, writeLookup_cons]
    cases hw : writeLookup ws p with
    | some c => rfl
    | none =>
      by_cases hp : p = w.1
      · subst hp; simp [orElseO]
      · have hwp : ¬ (w.1 = p) := fun hh => hp hh.symm
        simp [orElseO, hp, hwp]

theorem modelWrites_skip (m : ModelDir) (h : convertible m = false) :
    modelWrites m = [] := by
  unfold modelWrites
  unfold convertible at h
  by_cases hs : m.hasScreenshots = true
  · rw [if_neg (by simp [hs])]
    rw [hs] at h
    simp only [Bool.true_and] at h
    cases hb : findBinvox m with
    | none => rfl
    | some bv => rw [hb] at h; simp at h
  · rw [if_pos (by simp [Bool.not_eq_true] at hs ⊢; exact hs)]

theorem applyModel_converted (total idx : Nat) (st : ConvState) (m : ModelDir) :
    (applyModel total idx st m).converted =
      st.converted + (if convertible m then 1 else 0) := by
  unfold applyModel convertible
  by_cases hs : m.hasScreenshots = true
  · rw [if_neg (by simp [hs]), hs]
    cases hb : findBinvox m with
    | none => simp
    | some bv => simp
  · simp only [Bool.not_eq_true] at hs
    rw [if_pos (by simp [hs]), hs]
    simp

theorem applyModel_skipped (total idx : Nat) (st : ConvState) (m : ModelDir) :
    (applyModel total idx st m).skipped =
      st.skipped + (if convertible m then 0 else 1) := by
  unfold applyModel convertible
  by_cases hs : m.hasScreenshots = true
  · rw [if_neg (by simp [hs]), hs]
    cases hb : findBinvox m with
    | none => simp
    | some bv => simp
  · simp only [Bool.not_eq_true] at hs
    rw [if_pos (by simp [hs]), hs]
    simp

theorem applyModel_lookup (total idx : Nat) (st : ConvState) (m : ModelDir)
    (p : OutPath) :
    lookupFile (applyModel total idx st m).fs p =
      orElseO (writeLookup (modelWrites m) p) (lookupFile st.fs p) := by
  unfold applyModel
  by_cases hs : m.hasScreenshots = true
  · rw [if_neg (by simp [hs])]
    cases hb : findBinvox m with
    | none =>
      have : modelWrites m = [] := by unfold modelWrites; rw [if_neg (by simp [hs]), hb]
      rw [this]
      rfl
    | some bv =>
      show lookupFile (applyWrites _ (modelWrites m)) p = _
      rw [lookupFile_applyWrites, lookupFile_addDir, lookupFile_addDir]
  · rw [if_pos (by simp [Bool.not_eq_true] at hs ⊢; exact hs)]
    have : modelWrites m = [] :=
      modelWrites_skip m (by unfold convertible; simp [Bool.not_eq_true] at hs; simp [hs])
    rw [this]
    rfl

theorem mem_addDir (fs : OutFS) (d d' : OutDir) :
    d ∈ (addDir fs d').dirs ↔ d = d' ∨ d ∈ fs.dirs := by
  unfold addDir
  by_cases hd : d' ∈ fs.dirs
  · rw [if_pos hd]
    constructor
    · exact fun h => Or.inr h
    · rintro (rfl | h) <;> assumption
  · rw [if_neg hd]
    exact List.mem_cons

theorem applyModel_dirs (total idx : Nat) (st : ConvState) (m : ModelDir)
    (d : OutDir) :
    d ∈ (applyModel total idx st m).fs.dirs ↔
      d ∈ st.fs.dirs ∨ (convertible m = true ∧
        (d = .renderingModel m.name ∨ d = .voxelModel m.name)) := by
  unfold applyModel
  by_cases hs : m.hasScreenshots = true
  · rw [if_neg (by simp [hs])]
    cases hb : findBinvox m with
    | none =>
      have hc : convertible m = false := by unfold convertible; rw [hb]; simp
      simp [hc]
    | some bv =>
      have hc : convertible m = true := by unfold convertible; rw [hb, hs]; simp
      show d ∈ (applyWrites _ (modelWrites m)).dirs ↔ _
      rw [dirs_applyWrites, mem_addDir, mem_addDir]
      simp [hc]
      tauto
  · have hs' : m.hasScreenshots = false := by simpa [Bool.not_eq_true] using hs
    rw [if_pos (by simp [hs'])]
    have hc : convertible m = false := by unfold convertible; rw [hs']; simp
    simp [hc]

theorem applyModel_events (total idx : Nat) (st : ConvState) (m : ModelDir) :
    (applyModel total idx st m).events =
      st.events ++ modelEvents total idx st.converted m := by
  unfold applyModel modelEvents
  by_cases hs : m.hasScreenshots = true
  · simp only [hs, not_true_eq_false, if_false]
    cases hb : findBinvox m with
    | none => rfl
    | some bv => rfl
  · have hs' : m.hasScreenshots = false := by simpa [Bool.not_eq_true] using hs
    simp only [hs', Bool.false_eq_true, not_false_eq_true, if_true]

theorem applyModels_converted (total : Nat) (l : List ModelDir) :
    ∀ (idx : Nat) (st : ConvState),
      (applyModels total idx l st).converted =
        st.converted + l.countP convertible := by
  induction l with
  | nil => intro idx st; simp [applyModels, List.countP_nil]
  | cons m rest ih =>
    intro idx st
    show (applyModels total (idx + 1) rest (applyModel total idx st m)).converted = _
    rw [ih, applyModel_converted, List.countP_cons]
    by_cases hc : convertible m = true <;> simp [hc] <;> omega

theorem applyModels_skipped (total : Nat) (l : List ModelDir) :
    ∀ (idx : Nat) (st : ConvState),
      (applyModels total idx l st).skipped =
        st.skipped + l.countP (fun m => !convertible m) := by
  induction l with
  | nil => intro idx st; simp [applyModels, List.countP_nil]
  | cons m rest ih =>
    intro idx st
    show (applyModels total (idx + 1) rest (applyModel total idx st m)).skipped = _
    rw [ih, applyModel_skipped, List.countP_cons]
    by_cases hc : convertible m = true <;> simp [hc] <;> omega

theorem applyModels_lookup (total : Nat) (l : List ModelDir) :
    ∀ (idx : Nat) (st : ConvState) (p : OutPath),
      lookupFile (applyModels total idx l st).fs p =
        orElseO (writeLookup (allWrites l) p) (lookupFile st.fs p) := by
  induction l with
  | nil => intro idx st p; rfl
  | cons m rest ih =>
    intro idx st p
    show lookupFile (applyModels total (idx + 1) rest (applyModel total idx st m)).fs p = _
    rw [ih, applyModel_lookup]
    show _ = orElseO (writeLookup (modelWrites m ++ allWrites rest) p) _
    rw [writeLookup_append, orElseO_assoc]

theorem applyModels_dirs (total : Nat) (l : List ModelDir) :
    ∀ (idx : Nat) (st : ConvState) (d : OutDir),
      d ∈ (applyModels total idx l st).fs.dirs ↔
        d ∈ st.fs.dirs ∨ ∃ m ∈ l, convertible m = true ∧
          (d = .renderingModel m.name ∨ d = .voxelModel m.name) := by
  induction l with
  | nil => intro idx st d; simp [applyModels]
  | cons m rest ih =>
    intro idx st d
    show d ∈ (applyModels total (idx + 1) rest (applyModel total idx st m)).fs.dirs ↔ _
    rw [ih, applyModel_dirs]
    constructor
    · rintro ((h | h) | ⟨m', hm', hc, hd⟩)
      · exact Or.inl h
      · exact Or.inr ⟨m, List.mem_cons_self m rest, h⟩
      · exact Or.inr ⟨m', List.mem_cons_of_mem _ hm', hc, hd⟩
    · rintro (h | ⟨m', hm', hc, hd⟩)
      · exact Or.inl (Or.inl h)
      · rcases List.mem_cons.mp hm' with rfl | hm'
        · exact Or.inl (Or.inr ⟨hc, hd⟩)
        · exact Or.inr ⟨m', hm', hc, hd⟩

theorem applyModels_events (total : Nat) (l : List ModelDir) :
    ∀ (idx : Nat) (st : ConvState),
      (applyModels total idx l st).events =
        st.events ++ eventsOf total idx st.converted l := by
  induction l with
  | nil => intro idx st; simp [applyModels, eventsOf]
  | cons m rest ih =>
    intro idx st
    show (applyModels total (idx + 1) rest (applyModel total idx st m)).events = _
    rw [ih, applyModel_events, applyModel_converted]
    show _ = st.events ++ (modelEvents total idx st.converted m ++ _)
    rw [List.append_assoc]

theorem nodupKeys_setFile (fs : OutFS) (q : OutPath) (c : Bytes)
    (h : (fs.files.map Prod.fst).Nodup) :
    ((setFile fs q c).files.map Prod.fst).Nodup := by
  unfold setFile
  rw [List.map_cons, List.nodup_cons]
  constructor
  · intro hq
    rcases List.mem_map.mp hq with ⟨e, he, he1⟩
    have := (List.mem_filter.mp he).2
    simp only [decide_eq_true_eq] at this
    exact this he1
  · exact ((List.filter_sublist fs.files).map Prod.fst).nodup h

theorem nodupKeys_applyWrites (ws : List (OutPath × Bytes)) :
    ∀ (fs : OutFS), (fs.files.map Prod.fst).Nodup →
      ((applyWrites fs ws).files.map Prod.fst).Nodup := by
  induction ws with
  | nil => intro fs h; exact h
  | cons w ws ih =>
    intro fs h
    exact ih (setFile fs w.1 w.2) (nodupKeys_setFile fs w.1 w.2 h)

theorem files_applyModel (total idx : Nat) (st : ConvState) (m : ModelDir)
    (h : (st.fs.files.map Prod.fst).Nodup) :
    ((applyModel total idx st m).fs.files.map Prod.fst).Nodup := by
  unfold applyModel
  by_cases hs : m.hasScreenshots = true
  · simp only [hs, not_true_eq_false, if_false]
    cases hb : findBinvox m with
    | none => exact h
    | some bv =>
      show ((applyWrites _ (modelWrites m)).files.map Prod.fst).Nodup
      apply nodupKeys_applyWrites
      rw [files_addDir, files_addDir]
      exact h
  · have hs' : m.hasScreenshots = false := by simpa [Bool.not_eq_true] using hs
    simp only [hs', Bool.false_eq_true, not_false_eq_true, if_true]
    exact h

theorem nodupKeys_applyModels (total : Nat) (l : List ModelDir) :
    ∀ (idx : Nat) (st : ConvState), (st.fs.files.map Prod.fst).Nodup →
      ((applyModels total idx l st).fs.files.map Prod.fst).Nodup := by
  induction l with
  | nil => intro idx st h; exact h
  | cons m rest ih =>
    intro idx st h
    exact ih (idx + 1) (applyModel total idx st m) (files_applyModel total idx st m h)

theorem mem_iff_findKey (l : List (OutPath × Bytes)) (p : OutPath) (c : Bytes)
    (h : (l.map Prod.fst).Nodup) :
    (p, c) ∈ l ↔ (l.find? fun e => e.1 = p).map Prod.snd = some c := by
  induction l with
  | nil => simp
  | cons e l ih =>
    rw [List.map_cons, List.nodup_cons] at h
    by_cases hep : e.1 = p
    · rw [List.find?_cons_of_pos _ (by simpa using hep)]
      constructor
      · intro hm
        rcases List.mem_cons.mp hm with hm | hm
        · rw [← hm]; rfl
        · exact absurd (hep ▸ List.mem_map_of_mem Prod.fst hm) h.1
      · intro hm
        have : e = (p, c) := by
          rcases e with ⟨e1, e2⟩
          have hm2 : e2 = c := by simpa using hm
          rw [← hep, ← hm2]
        exact this ▸ List.mem_cons_self e l
    · rw [List.find?_cons_of_neg _ (by simpa using hep)]
      rw [← ih h.2]
      constructor
      · intro hm
        rcases List.mem_cons.mp hm with hm | hm
        · exact absurd (congrArg Prod.fst hm.symm) hep
        · exact hm
      · exact fun hm => List.mem_cons_of_mem e hm

theorem mem_files_iff_lookup (fs : OutFS) (p : OutPath) (c : Bytes)
    (h : (fs.files.map Prod.fst).Nodup) :
    (p, c) ∈ fs.files ↔ lookupFile fs p = some c :=
  mem_iff_findKey fs.files p c h

theorem mem_allWrites (l : List ModelDir) (w : OutPath × Bytes) :
    w ∈ allWrites l ↔ ∃ m ∈ l, w ∈ modelWrites m := by
  induction l with
  | nil => simp [allWrites]
  | cons m rest ih =>
    show w ∈ modelWrites m ++ allWrites rest ↔ _
    rw [List.mem_append, ih]
    constructor
    · rintro (h | ⟨m', hm', hw⟩)
      · exact ⟨m, List.mem_cons_self m rest, h⟩
      · exact ⟨m', List.mem_cons_of_mem _ hm', hw⟩
    · rintro ⟨m', hm', hw⟩
      rcases List.mem_cons.mp hm' with rfl | hm'
      · exact Or.inl hw
      · exact Or.inr ⟨m', hm', hw⟩

theorem modelWrites_pathId (m : ModelDir) (w : OutPath × Bytes)
    (hw : w ∈ modelWrites m) : pathModelId w.1 = m.name := by
  unfold modelWrites at hw
  by_cases hs : m.hasScreenshots = true
  · rw [if_neg (by simp [hs])] at hw
    cases hb : findBinvox m with
    | none => rw [hb] at hw; simp at hw
    | some bv =>
      rw [hb] at hw
      rcases List.mem_append.mp hw with hw | hw
      · rcases List.mem_map.mp hw with ⟨f, _, rfl⟩
        rfl
      · rcases List.mem_singleton.mp hw with rfl
        rfl
  · rw [if_pos (by simpa [Bool.not_eq_true] using hs)] at hw
    simp at hw

theorem allWrites_none_of_other (l : List ModelDir) (p : OutPath)
    (h : ∀ m ∈ l, m.name ≠ pathModelId p) :
    writeLookup (allWrites l) p = none := by
  apply writeLookup_eq_none
  intro w hw
  rcases (mem_allWrites l w).mp hw with ⟨m, hm, hwm⟩
  intro hwp
  exact h m hm (by rw [← modelWrites_pathId m w hwm, hwp])

theorem writeLookup_allWrites_local (l : List ModelDir) (m : ModelDir)
    (hm : m ∈ l) (hnd : (l.map ModelDir.name).Nodup) (p : OutPath)
    (hp : pathModelId p = m.name) :
    writeLookup (allWrites l) p = writeLookup (modelWrites m) p := by
  induction l with
  | nil => exact absurd hm (List.not_mem_nil m)
  | cons m0 rest ih =>
    rw [List.map_cons, List.nodup_cons] at hnd
    show writeLookup (modelWrites m0 ++ allWrites rest) p = _
    rw [writeLookup_append]
    rcases List.mem_cons.mp hm with rfl | hm'
    · have hrest : writeLookup (allWrites rest) p = none := by
        apply allWrites_none_of_other
        intro m' hm' heq
        exact hnd.1 (by rw [hp] at heq; exact heq ▸ List.mem_map_of_mem ModelDir.name hm')
      rw [hrest]
      rfl
    · have hm0 : writeLookup (modelWrites m0) p = none := by
        apply writeLookup_eq_none
        intro w hw hwp
        have h1 : pathModelId w.1 = m0.name := modelWrites_pathId m0 w hw
        rw [hwp, hp] at h1
        exact hnd.1 (h1 ▸ List.mem_map_of_mem ModelDir.name hm')
      rw [hm0, orElseO_none_right]
      exact ih hm' hnd.2

theorem writeLookup_pngs (mid : String) (fl : List SrcFile)
    (hnd : (fl.map SrcFile.name).Nodup) (fname : String) :
    writeLookup (fl.map fun f => (OutPath.rendering mid f.name, f.content))
        (.rendering mid fname) =
      (fl.find? fun f => f.name = fname).map SrcFile.content := by
  induction fl with
  | nil => rfl
  | cons f fl ih =>
    rw [List.map_cons, List.nodup_cons] at hnd
    rw [List.map_cons, writeLookup_cons, ih hnd.2]
    by_cases hf : f.name = fname
    · rw [List.find?_cons_of_pos _ (by simpa using hf)]
      have hnone : fl.find? (fun f => f.name = fname) = none := by
        rw [List.find?_eq_none]
        intro g hg hgf
        simp only [decide_eq_true_eq] at hgf
        exact hnd.1 (by rw [← hf] at hgf; exact hgf ▸ List.mem_map_of_mem SrcFile.name hg)
      rw [hnone]
      simp [hf]
    · rw [List.find?_cons_of_neg _ (by simpa using hf)]
      cases hrest : (fl.find? fun f => f.name = fname).map SrcFile.content with
      | some c => rfl
      | none =>
        have : ¬ (OutPath.rendering mid f.name = OutPath.rendering mid fname) := by
          intro h
          exact hf (by cases h; rfl)
        simp [this]

theorem writeLookup_model_rendering (m : ModelDir) (bv : SrcFile)
    (hs : m.hasScreenshots = true) (hb : findBinvox m = some bv)
    (hnd : ((pngs m).map SrcFile.name).Nodup) (fname : String) :
    writeLookup (modelWrites m) (.rendering m.name fname) =
      ((pngs m).find? fun f => f.name = fname).map SrcFile.content := by
  unfold modelWrites
  rw [if_neg (by simp [hs]), hb, writeLookup_append]
  have hvox : writeLookup [(OutPath.voxel m.name "model.binvox", bv.content)]
      (.rendering m.name fname) = none := by
    apply writeLookup_eq_none
    intro w hw
    rcases List.mem_singleton.mp hw with rfl
    simp
  rw [hvox, writeLookup_pngs m.name (pngs m) hnd fname]
  rfl

theorem writeLookup_model_voxel (m : ModelDir) (bv : SrcFile)
    (hs : m.hasScreenshots = true) (hb : findBinvox m = some bv) (fname : String) :
    writeLookup (modelWrites m) (.voxel m.name fname) =
      if fname = "model.binvox" then some bv.content else none := by
  unfold modelWrites
  rw [if_neg (by simp [hs]), hb, writeLookup_append]
  have hpng : writeLookup ((pngs m).map fun f =>
      (OutPath.rendering m.name f.name, f.content)) (.voxel m.name fname) = none := by
    apply writeLookup_eq_none
    intro w hw
    rcases List.mem_map.mp hw with ⟨f, _, rfl⟩
    simp
  rw [hpng, orElseO_none_right, writeLookup_cons]
  show (if (OutPath.voxel m.name "model.binvox" = OutPath.voxel m.name fname) then _ else _) = _
  by_cases hf : fname = "model.binvox"
  · rw [if_pos (by rw [hf]), if_pos hf]
  · rw [if_neg (fun h => hf (by cases h; rfl)), if_neg hf]

theorem modelEvents_idx (total idx conv : Nat) (m : ModelDir) (e : ConvEvent)
    (he : e ∈ modelEvents total idx conv m) : eventIdx1 e = idx + 1 := by
  unfold modelEvents at he
  by_cases hs : m.hasScreenshots = true
  · have hns : ¬ (¬ m.hasScreenshots = true) := by simp [hs]
    rw [if_neg hns] at he
    revert he
    cases hb : findBinvox m with
    | none =>
      intro he
      rcases List.mem_singleton.mp he with rfl
      rfl
    | some bv =>
      intro he
      simp only [] at he
      by_cases h50 : (idx + 1) % 50 = 0
      · rw [if_pos h50] at he
        rcases List.mem_singleton.mp he with rfl
        rfl
      · rw [if_neg h50] at he
        simp at he
  · have hps : ¬ m.hasScreenshots = true := hs
    rw [if_pos hps] at he
    rcases List.mem_singleton.mp he with rfl
    rfl

theorem eventsOf_min (total : Nat) :
    ∀ (l : List ModelDir) (idx conv : Nat) (e : ConvEvent),
      e ∈ eventsOf total idx conv l → idx + 1 ≤ eventIdx1 e := by
  intro l
  induction l with
  | nil => intro idx conv e he; simp [eventsOf] at he
  | cons m rest ih =>
    intro idx conv e he
    unfold eventsOf at he
    rcases List.mem_append.mp he with he | he
    · rw [modelEvents_idx total idx conv m e he]
    · have := ih (idx + 1) (conv + (if convertible m then 1 else 0)) e he
      omega

theorem eventsOf_filter_at (total : Nat) :
    ∀ (l : List ModelDir) (start conv idx : Nat) (m : ModelDir),
      l[idx]? = some m →
      (eventsOf total start conv l).filter (fun e => eventIdx1 e = start + idx + 1) =
        modelEvents total (start + idx) (conv + (l.take idx).countP convertible) m := by
  intro l
  induction l with
  | nil => intro start conv idx m hm; simp at hm
  | cons m0 rest ih =>
    intro start conv idx m hm
    show (modelEvents total start conv m0 ++
      eventsOf total (start + 1) (conv + (if convertible m0 then 1 else 0)) rest).filter
        (fun e => eventIdx1 e = start + idx + 1) = _
    rw [List.filter_append]
    cases idx with
    | zero =>
      rw [List.getElem?_cons_zero] at hm
      cases hm
      have h1 : (modelEvents total start conv m0).filter
          (fun e => eventIdx1 e = start + 0 + 1) = modelEvents total start conv m0 := by
        rw [List.filter_eq_self]
        intro e he
        simp [modelEvents_idx total start conv m0 e he]
      have h2 : (eventsOf total (start + 1)
          (conv + (if convertible m0 then 1 else 0)) rest).filter
          (fun e => eventIdx1 e = start + 0 + 1) = [] := by
        rw [List.filter_eq_nil_iff]
        intro e he
        have := eventsOf_min total rest (start + 1) _ e he
        simp only [decide_eq_true_eq]
        omega
      rw [h1, h2, List.append_nil]
      simp
    | succ idx =>
      rw [List.getElem?_cons_succ] at hm
      have h1 : (modelEvents total start conv m0).filter
          (fun e => eventIdx1 e = start + (idx + 1) + 1) = [] := by
        rw [List.filter_eq_nil_iff]
        intro e he
        have := modelEvents_idx total start conv m0 e he
        simp only [decide_eq_true_eq]
        omega
      rw [h1, List.nil_append]
      have h2 := ih (start + 1) (conv + (if convertible m0 then 1 else 0)) idx m hm
      have e1 : start + 1 + idx + 1 = start + (idx + 1) + 1 := by omega
      have e2 : start + 1 + idx = start + (idx + 1) := by omega
      have e3 : conv + (if convertible m0 then 1 else 0) +
          ((rest.take idx).countP convertible) =
          conv + (((m0 :: rest).take (idx + 1)).countP convertible) := by
        rw [List.take_succ_cons, List.countP_cons]
        by_cases hc : convertible m0 = true <;> simp [hc] <;> omega
      simp only [e1, e2, e3] at h2
      exact h2

theorem convert_dataset_events (env : FsEnv) (src : List SrcEntry) (fs0 : OutFS)
    (st : ConvState) (h : convert_dataset env src fs0 = .ok st) :
    st.events = eventsOf (modelDirsOf src).length 0 0 (modelDirsOf src) := by
  rw [convert_dataset_ok env src fs0 st h, applyModels_events]
  rfl

/-! ### Success transfer: on a filesystem where `unlink` never raises, the
success of a run and the writes it performs do not depend on the initial
contents of the output tree. -/

theorem tryErr_noUnlink (env : FsEnv) (fs : OutFS) (dst : OutPath)
    (hu : env.unlinkErr dst = none) : tryErr env fs dst = env.symlinkErr dst := by
  unfold tryErr
  by_cases hex : fileExists fs dst = true
  · rw [if_pos hex, hu]
  · rw [if_neg (by simpa using hex)]

theorem linkOrCopy_transfer (env : FsEnv) (dst : OutPath) (c : Bytes)
    (hu : env.unlinkErr dst = none) (fs fs' : OutFS)
    (h : linkOrCopy env fs dst c = .ok fs') :
    ∀ fs₂, linkOrCopy env fs₂ dst c = .ok (setFile fs₂ dst c) := by
  intro fs₂
  rw [linkOrCopy_char] at h ⊢
  rw [tryErr_noUnlink env fs dst hu] at h
  rw [tryErr_noUnlink env fs₂ dst hu]
  revert h
  cases hs : env.symlinkErr dst with
  | none => intro h; rfl
  | some e =>
    intro h
    cases e with
    | osError =>
      simp only [] at h ⊢
      revert h
      cases hc : env.copyErr dst with
      | none => intro h; rfl
      | some e2 => intro h; exact absurd h (by simp)
    | otherError => exact absurd h (by simp)

theorem mkdirP_err_none (env : FsEnv) (fs : OutFS) (d : OutDir) (fs' : OutFS)
    (h : mkdirP env fs d = .ok fs') : env.mkdirErr d = none := by
  unfold mkdirP at h
  revert h
  cases he : env.mkdirErr d with
  | none => intro h; rfl
  | some e => intro h; exact absurd h (by simp)

theorem mkdirP_of_none (env : FsEnv) (fs : OutFS) (d : OutDir)
    (h : env.mkdirErr d = none) : mkdirP env fs d = .ok (addDir fs d) := by
  unfold mkdirP
  rw [h]

theorem linkAll_transfer (env : FsEnv) (mid : String)
    (hu : ∀ p, env.unlinkErr p = none) :
    ∀ (fl : List SrcFile) (fs fs' : OutFS), linkAll env mid fl fs = .ok fs' →
      ∀ fs₂, linkAll env mid fl fs₂ =
        .ok (applyWrites fs₂ (fl.map fun f => (OutPath.rendering mid f.name, f.content))) := by
  intro fl
  induction fl with
  | nil => intro fs fs' h fs₂; rfl
  | cons f rest ih =>
    intro fs fs' h fs₂
    unfold linkAll at h ⊢
    cases h1 : linkOrCopy env fs (.rendering mid f.name) f.content with
    | error e => rw [h1] at h; exact absurd h (by simp)
    | ok fs1 =>
      rw [h1] at h
      simp only [] at h
      rw [linkOrCopy_transfer env (.rendering mid f.name) f.content (hu _) fs fs1 h1 fs₂]
      simp only []
      exact ih fs1 fs' h (setFile fs₂ (.rendering mid f.name) f.content)

theorem processModel_transfer (env : FsEnv) (total idx : Nat)
    (hu : ∀ p, env.unlinkErr p = none) (st : ConvState) (m : ModelDir)
    (st' : ConvState) (h : processModel env total idx st m = .ok st') :
    ∀ st₂, processModel env total idx st₂ m = .ok (applyModel total idx st₂ m) := by
  intro st₂
  unfold processModel at h ⊢
  unfold applyModel
  by_cases hs : m.hasScreenshots = true
  · have hns : ¬ (¬ m.hasScreenshots = true) := by simp [hs]
    rw [if_neg hns] at h ⊢
    rw [if_neg hns]
    revert h
    cases hb : findBinvox m with
    | none => intro h; rfl
    | some bv =>
      intro h
      simp only [] at h ⊢
      cases h1 : mkdirP env st.fs (.renderingModel m.name) with
      | error e => rw [h1] at h; exact absurd h (by simp)
      | ok fs1 =>
        rw [h1] at h
        simp only [] at h
        rw [mkdirP_of_none env st₂.fs _ (mkdirP_err_none env st.fs _ fs1 h1)]
        simp only []
        cases h2 : mkdirP env fs1 (.voxelModel m.name) with
        | error e => rw [h2] at h; exact absurd h (by simp)
        | ok fs2 =>
          rw [h2] at h
          simp only [] at h
          rw [mkdirP_of_none env _ _ (mkdirP_err_none env fs1 _ fs2 h2)]
          simp only []
          cases h3 : linkAll env m.name (pngs m) fs2 with
          | error e => rw [h3] at h; exact absurd h (by simp)
          | ok fs3 =>
            rw [h3] at h
            simp only [] at h
            rw [linkAll_transfer env m.name hu (pngs m) fs2 fs3 h3]
            simp only []
            cases h4 : linkOrCopy env fs3 (.voxel m.name "model.binvox") bv.content with
            | error e => rw [h4] at h; exact absurd h (by simp)
            | ok fs4 =>
              rw [linkOrCopy_transfer env _ bv.content (hu _) fs3 fs4 h4]
              simp only []
              congr 1
              simp [modelWrites, hs, hb, applyWrites, List.foldl_append]
  · have hps : ¬ m.hasScreenshots = true := hs
    rw [if_pos hps] at h ⊢
    rw [if_pos hps]

theorem runModels_transfer (env : FsEnv) (total : Nat)
    (hu : ∀ p, env.unlinkErr p = none) :
    ∀ (l : List ModelDir) (idx : Nat) (st st' : ConvState),
      runModels env total idx l st = .ok st' →
      ∀ st₂, runModels env total idx l st₂ = .ok (applyModels total idx l st₂) := by
  intro l
  induction l with
  | nil => intro idx st st' h st₂; rfl
  | cons m rest ih =>
    intro idx st st' h st₂
    unfold runModels at h ⊢
    cases h1 : processModel env total idx st m with
    | error e => rw [h1] at h; exact absurd h (by simp)
    | ok st1 =>
      rw [h1] at h
      simp only [] at h
      rw [processModel_transfer env total idx hu st m st1 h1 st₂]
      simp only []
      exact ih (idx + 1) st1 st' h (applyModel total idx st₂ m)

theorem convert_dataset_transfer (env : FsEnv) (src : List SrcEntry)
    (fs0 : OutFS) (st : ConvState) (hu : ∀ p, env.unlinkErr p = none)
    (h : convert_dataset env src fs0 = .ok st) :
    ∀ fs₂, convert_dataset env src fs₂ =
      .ok (applyModels (modelDirsOf src).length 0 (modelDirsOf src)
        ⟨addDir (addDir fs₂ .renderingRoot) .voxelRoot, 0, 0, []⟩) := by
  intro fs₂
  unfold convert_dataset at h ⊢
  cases h1 : mkdirP env fs0 .renderingRoot with
  | error e => rw [h1] at h; exact absurd h (by simp)
  | ok fs1 =>
    rw [h1] at h
    simp only [] at h
    rw [mkdirP_of_none env fs₂ _ (mkdirP_err_none env fs0 _ fs1 h1)]
    simp only []
    cases h2 : mkdirP env fs1 .voxelRoot with
    | error e => rw [h2] at h; exact absurd h (by simp)
    | ok fs2 =>
      rw [h2] at h
      simp only [] at h
      rw [mkdirP_of_none env _ _ (mkdirP_err_none env fs1 _ fs2 h2)]
      simp only []
      revert h
      cases h3 : env.listErr with
      | some e => intro h; exact absurd h (by simp)
      | none =>
        intro h
        simp only [] at h
        exact runModels_transfer env (modelDirsOf src).length hu (modelDirsOf src)
          0 _ st h ⟨addDir (addDir fs₂ .renderingRoot) .voxelRoot, 0, 0, []⟩

/-! ### Claim-level helper lemmas. -/

theorem countP_convertible_partition (l : List ModelDir) :
    l.countP convertible + l.countP (fun m => !convertible m) = l.length := by
  induction l with
  | nil => rfl
  | cons m rest ih =>
    rw [List.countP_cons, List.countP_cons, List.length_cons]
    by_cases hc : convertible m = true <;> simp [hc] <;> omega

theorem lookupFile_nil_files (dirs : List OutDir) (p : OutPath) :
    lookupFile ⟨dirs, []⟩ p = none := rfl

theorem mem_of_index {α : Type} (l : List α) (i : Nat) (a : α)
    (h : l[i]? = some a) : a ∈ l := by
  rcases List.getElem?_eq_some.mp h with ⟨hlt, rfl⟩
  exact List.getElem_mem hlt

theorem modelEvents_skip_eq (total idx conv : Nat) (m : ModelDir)
    (hc : convertible m = false) :
    modelEvents total idx conv m =
      [.skip (idx + 1) total m.name
        (if m.hasScreenshots then "no binvox file" else "no screenshots directory")] := by
  unfold modelEvents
  unfold convertible at hc
  by_cases hs : m.hasScreenshots = true
  · have hns : ¬ (¬ m.hasScreenshots = true) := by simp [hs]
    rw [if_neg hns, if_pos hs]
    rw [hs, Bool.true_and] at hc
    cases hb : findBinvox m with
    | none => rfl
    | some bv => rw [hb] at hc; simp at hc
  · have hs' : m.hasScreenshots = false := by simpa [Bool.not_eq_true] using hs
    rw [if_pos hs, if_neg (by simp [hs'])]

/-- C9: after the converter processes all candidates in a successful run,
the converted and skipped counters sum to the total number of candidate
model directories (the immediate subdirectories of the source path
excluding `__pycache__`): every candidate is counted exactly once. -/
theorem claim_counts_partition (env : FsEnv) (src : List SrcEntry) (fs0 : OutFS)
    (st : ConvState) (h : convert_dataset env src fs0 = .ok st) :
    st.converted + st.skipped = (modelDirsOf src).length := by
  rw [convert_dataset_ok env src fs0 st h, applyModels_converted, applyModels_skipped]
  show 0 + _ + (0 + _) = _
  rw [Nat.zero_add, Nat.zero_add]
  exact countP_convertible_partition (modelDirsOf src)

/-- C1: for every candidate model directory with both a screenshots
directory and a voxel file, after a successful conversion into a fresh
output tree, the rendering tree holds that model's rendering folder with
one entry per source `.png` image carrying the source's byte content, the
voxel tree holds that model's folder containing exactly the single file
`model.binvox` with the voxel file's content, and the converted counter
counts that model (once per convertible candidate). -/
theorem claim_convertible_model_outputs (env : FsEnv) (src : List SrcEntry)
    (st : ConvState) (m : ModelDir) (bv : SrcFile)
    (h : convert_dataset env src emptyFS = .ok st)
    (hnd : ((modelDirsOf src).map ModelDir.name).Nodup)
    (hm : m ∈ modelDirsOf src)
    (hs : m.hasScreenshots = true)
    (hb : findBinvox m = some bv)
    (hp : ((pngs m).map SrcFile.name).Nodup) :
    (OutDir.renderingModel m.name ∈ st.fs.dirs ∧
     OutDir.voxelModel m.name ∈ st.fs.dirs)
    ∧ (∀ (fname : String) (c : Bytes),
        (OutPath.rendering m.name fname, c) ∈ st.fs.files ↔
          ∃ f ∈ pngs m, f.name = fname ∧ f.content = c)
    ∧ (∀ (fname : String) (c : Bytes),
        (OutPath.voxel m.name fname, c) ∈ st.fs.files ↔
          (fname = "model.binvox" ∧ c = bv.content))
    ∧ st.converted = (modelDirsOf src).countP convertible := by
  have hc : convertible m = true := by unfold convertible; rw [hs, hb]; rfl
  have hok := convert_dataset_ok env src emptyFS st h
  have hkeys : (st.fs.files.map Prod.fst).Nodup := by
    rw [hok]
    exact nodupKeys_applyModels _ _ 0 _ (by simp [addDir, emptyFS])
  have hlk : ∀ p, lookupFile st.fs p = writeLookup (allWrites (modelDirsOf src)) p := by
    intro p
    rw [hok, applyModels_lookup]
    have : lookupFile (addDir (addDir emptyFS .renderingRoot) .voxelRoot) p = none := rfl
    rw [this, orElseO_none_right]
  refine ⟨?_, ?_, ?_, ?_⟩
  · constructor
    · rw [hok]
      rw [applyModels_dirs]
      exact Or.inr ⟨m, hm, hc, Or.inl rfl⟩
    · rw [hok]
      rw [applyModels_dirs]
      exact Or.inr ⟨m, hm, hc, Or.inr rfl⟩
  · intro fname c
    rw [mem_files_iff_lookup st.fs _ c hkeys, hlk,
      writeLookup_allWrites_local (modelDirsOf src) m hm hnd
        (OutPath.rendering m.name fname) rfl,
      writeLookup_model_rendering m bv hs hb hp fname]
    constructor
    · intro hsome
      rcases Option.map_eq_some'.mp hsome with ⟨f0, hf0, hf0c⟩
      have hf0m := List.mem_of_find?_eq_some hf0
      have hf0n : f0.name = fname := by simpa using List.find?_some hf0
      exact ⟨f0, hf0m, hf0n, hf0c⟩
    · rintro ⟨f, hf, hfn, hfc⟩
      have hsome : ((pngs m).find? fun f => f.name = fname).isSome := by
        rw [List.find?_isSome]
        exact ⟨f, hf, by simpa using hfn⟩
      rcases Option.isSome_iff_exists.mp hsome with ⟨f0, hf0⟩
      have hf0m := List.mem_of_find?_eq_some hf0
      have hf0n : f0.name = fname := by simpa using List.find?_some hf0
      have : f0 = f :=
        List.inj_on_of_nodup_map hp hf0m hf (by rw [hf0n, hfn])
      rw [hf0, Option.map_some', this, hfc]
  · intro fname c
    rw [mem_files_iff_lookup st.fs _ c hkeys, hlk,
      writeLookup_allWrites_local (modelDirsOf src) m hm hnd
        (OutPath.voxel m.name fname) rfl,
      writeLookup_model_voxel m bv hs hb fname]
    by_cases hf : fname = "model.binvox"
    · rw [if_pos hf]
      simp only [Option.some.injEq, hf, true_and]
      exact eq_comm
    · rw [if_neg hf]
      simp [hf]
  · rw [hok, applyModels_converted]
    rw [Nat.zero_add]

/-- C2: every candidate model directory missing the screenshots directory
or a voxel file is skipped: the skip counter counts it (once per skipped
candidate), no file and no directory is created for it on either output
tree, and exactly one skip message is printed for its index, whose reason
is "no screenshots directory" when the screenshots directory is absent
(even if the voxel file is also absent) and "no binvox file" when only the
voxel file is absent. -/
theorem claim_skipped_model_no_outputs (env : FsEnv) (src : List SrcEntry)
    (st : ConvState) (idx : Nat) (m : ModelDir)
    (h : convert_dataset env src emptyFS = .ok st)
    (hnd : ((modelDirsOf src).map ModelDir.name).Nodup)
    (hm : (modelDirsOf src)[idx]? = some m)
    (hc : convertible m = false) :
    st.skipped = (modelDirsOf src).countP (fun m' => !convertible m')
    ∧ (∀ fname : String, lookupFile st.fs (.rendering m.name fname) = none)
    ∧ (∀ fname : String, lookupFile st.fs (.voxel m.name fname) = none)
    ∧ OutDir.renderingModel m.name ∉ st.fs.dirs
    ∧ OutDir.voxelModel m.name ∉ st.fs.dirs
    ∧ ConvEvent.skip (idx + 1) (modelDirsOf src).length m.name
        (if m.hasScreenshots then "no binvox file" else "no screenshots directory")
        ∈ st.events
    ∧ st.events.countP (fun e => eventIdx1 e = idx + 1) = 1 := by
  have hmm : m ∈ modelDirsOf src := mem_of_index _ idx m hm
  have hok := convert_dataset_ok env src emptyFS st h
  have hlk : ∀ p, pathModelId p = m.name → lookupFile st.fs p = none := by
    intro p hp
    rw [hok, applyModels_lookup]
    have h0 : lookupFile (addDir (addDir emptyFS .renderingRoot) .voxelRoot) p = none := rfl
    rw [h0, orElseO_none_right,
      writeLookup_allWrites_local (modelDirsOf src) m hmm hnd p hp,
      modelWrites_skip m hc]
    rfl
  have hdir : ∀ d : OutDir, (d = .renderingModel m.name ∨ d = .voxelModel m.name) →
      d ∉ st.fs.dirs := by
    intro d hd hmem
    rw [hok, applyModels_dirs] at hmem
    rcases hmem with hmem | ⟨m', hm', hc', hd'⟩
    · have : d ∈ (addDir (addDir emptyFS OutDir.renderingRoot) OutDir.voxelRoot).dirs :=
        hmem
      rcases hd with rfl | rfl <;> simp [addDir, emptyFS] at this
    · have hname : m'.name = m.name := by
        rcases hd with rfl | rfl
        · rcases hd' with hd' | hd'
          · exact (OutDir.renderingModel.inj hd').symm
          · exact absurd hd' (by simp)
        · rcases hd' with hd' | hd'
          · exact absurd hd' (by simp)
          · exact (OutDir.voxelModel.inj hd').symm
      have : m' = m := List.inj_on_of_nodup_map hnd hm' hmm hname
      rw [this] at hc'
      rw [hc] at hc'
      exact absurd hc' (by simp)
  have hev := convert_dataset_events env src emptyFS st h
  have hfilter := eventsOf_filter_at (modelDirsOf src).length (modelDirsOf src)
    0 0 idx m hm
  rw [modelEvents_skip_eq _ _ _ m hc] at hfilter
  simp only [Nat.zero_add] at hfilter
  refine ⟨?_, ?_, ?_, ?_, ?_, ?_, ?_⟩
  · rw [hok, applyModels_skipped]
    exact Nat.zero_add _
  · intro fname; exact hlk _ rfl
  · intro fname; exact hlk _ rfl
  · exact hdir _ (Or.inl rfl)
  · exact hdir _ (Or.inr rfl)
  · have : ConvEvent.skip (idx + 1) (modelDirsOf src).length m.name
        (if m.hasScreenshots then "no binvox file" else "no screenshots directory")
        ∈ (eventsOf (modelDirsOf src).length 0 0 (modelDirsOf src)).filter
          (fun e => eventIdx1 e = idx + 1) := by
      rw [hfilter]
      exact List.mem_singleton.mpr rfl
    rw [hev]
    exact List.mem_of_mem_filter this
  · rw [hev, List.countP_eq_length_filter, hfilter]
    rfl

/-- C10: a candidate whose `models` subdirectory does not exist is handled
exactly like one whose `models` subdirectory contains no `.binvox` file:
with the screenshots directory present, it is skipped with reason
"no binvox file" and no exception is raised. -/
theorem claim_missing_models_dir (env : FsEnv) (total idx : Nat)
    (st : ConvState) (m : ModelDir)
    (hs : m.hasScreenshots = true) (hmm : m.hasModels = false) :
    processModel env total idx st m =
      .ok (ConvState.mk st.fs st.converted (st.skipped + 1)
        (st.events ++ [.skip (idx + 1) total m.name "no binvox file"]))
    ∧ ∀ mf : List SrcFile, (∀ f ∈ mf, pathSuffix f.name ≠ ".binvox") →
        processModel env total idx st
          { m with hasModels := true, modelsFiles := mf } =
          processModel env total idx st m := by
  have hbv : findBinvox m = none := by
    unfold findBinvox
    rw [if_neg (by simp [hmm])]
  constructor
  · unfold processModel
    rw [hbv]
    rw [if_neg (by simp [hs])]
  · intro mf hmf
    have hbv2 : findBinvox { m with hasModels := true, modelsFiles := mf } = none := by
      unfold findBinvox
      rw [if_pos (by simp)]
      simp only []
      rw [List.find?_eq_none]
      intro f hf
      simpa using hmf f hf
    unfold processModel
    rw [hbv, hbv2]

/-- C5: re-running the converter on an already-converted source (on a
filesystem where `unlink` does not raise) does not raise an error and
leaves the content of the output tree unchanged: every destination entry is
removed and re-created with the same content. -/
theorem claim_rerun_idempotent (env : FsEnv) (src : List SrcEntry) (fs0 : OutFS)
    (st1 : ConvState) (h1 : convert_dataset env src fs0 = .ok st1)
    (hu : ∀ p, env.unlinkErr p = none) :
    ∃ st2, convert_dataset env src st1.fs = .ok st2 ∧
      ∀ p, lookupFile st2.fs p = lookupFile st1.fs p := by
  refine ⟨_, convert_dataset_transfer env src fs0 st1 hu h1 st1.fs, ?_⟩
  intro p
  rw [applyModels_lookup]
  have h1l : lookupFile st1.fs p =
      orElseO (writeLookup (allWrites (modelDirsOf src)) p)
        (lookupFile (addDir (addDir fs0 .renderingRoot) .voxelRoot) p) := by
    rw [convert_dataset_ok env src fs0 st1 h1, applyModels_lookup]
  rw [lookupFile_addDir, lookupFile_addDir]
  cases hw : writeLookup (allWrites (modelDirsOf src)) p with
  | some c =>
    rw [h1l, hw]
    rfl
  | none => rfl

/-- C6 (amended): a periodic progress message for 1-based candidate index
`idx + 1` is printed exactly when `idx + 1` is divisible by 50 and the
candidate at that index is converted; skipped candidates never produce a
progress message, even at indices divisible by 50. -/
theorem claim_progress_at_50_iff_converted (env : FsEnv) (src : List SrcEntry)
    (fs0 : OutFS) (st : ConvState) (idx : Nat) (m : ModelDir)
    (h : convert_dataset env src fs0 = .ok st)
    (hm : (modelDirsOf src)[idx]? = some m) :
    (∃ c, ConvEvent.progress (idx + 1) (modelDirsOf src).length c ∈ st.events) ↔
      ((idx + 1) % 50 = 0 ∧ convertible m = true) := by
  have hev := convert_dataset_events env src fs0 st h
  have hfilter := eventsOf_filter_at (modelDirsOf src).length (modelDirsOf src)
    0 0 idx m hm
  simp only [Nat.zero_add] at hfilter
  constructor
  · rintro ⟨c, hc⟩
    have hmemf : ConvEvent.progress (idx + 1) (modelDirsOf src).length c ∈
        (eventsOf (modelDirsOf src).length 0 0 (modelDirsOf src)).filter
          (fun e => eventIdx1 e = idx + 1) := by
      rw [List.mem_filter]
      exact ⟨hev ▸ hc, by simp [eventIdx1]⟩
    rw [hfilter] at hmemf
    unfold modelEvents at hmemf
    by_cases hs : m.hasScreenshots = true
    · rw [if_neg (show ¬ (¬ m.hasScreenshots = true) by simp [hs])] at hmemf
      revert hmemf
      cases hb : findBinvox m with
      | none => intro hmemf; simp at hmemf
      | some bv =>
        intro hmemf
        simp only [] at hmemf
        by_cases h50 : (idx + 1) % 50 = 0
        · exact ⟨h50, by unfold convertible; rw [hs, hb]; rfl⟩
        · rw [if_neg h50] at hmemf
          simp at hmemf
    · have hps : ¬ m.hasScreenshots = true := hs
      rw [if_pos hps] at hmemf
      simp at hmemf
  · rintro ⟨h50, hcv⟩
    have hs : m.hasScreenshots = true := by
      unfold convertible at hcv
      exact (Bool.and_eq_true _ _ |>.mp hcv).1
    obtain ⟨bv, hb⟩ : ∃ bv, findBinvox m = some bv := by
      unfold convertible at hcv
      rcases Bool.and_eq_true _ _ |>.mp hcv with ⟨_, hsome⟩
      exact Option.isSome_iff_exists.mp hsome
    have hme : modelEvents (modelDirsOf src).length idx
        (((modelDirsOf src).take idx).countP convertible) m =
        [.progress (idx + 1) (modelDirsOf src).length
          ((((modelDirsOf src).take idx).countP convertible) + 1)] := by
      unfold modelEvents
      rw [if_neg (show ¬ (¬ m.hasScreenshots = true) by simp [hs]), hb]
      simp only []
      rw [if_pos h50]
    refine ⟨(((modelDirsOf src).take idx).countP convertible) + 1, ?_⟩
    rw [hev]
    apply List.mem_of_mem_filter (p := fun e => eventIdx1 e = idx + 1)
    rw [hfilter, hme]
    exact List.mem_singleton.mpr rfl

/-- C6 counterexample: a run over fifty candidates whose fiftieth candidate
(1-based index 50, divisible by 50) is skipped prints no progress message
at all, refuting the claim that the progress message appears every 50
processed candidates regardless of conversion or skipping. -/
theorem c6_counterexample :
    ((convert_dataset cleanEnv c6src emptyFS).toOption.map
      (fun st => (st.events.countP isProgressEv, st.skipped))) = some (0, 50)
    ∧ (modelDirsOf c6src).length = 50 ∧ 50 % 50 = 0 := by
  refine ⟨by decide, by decide, by decide⟩

/-- C7 (amended): within the per-destination link step, any `OSError` from
the `try` block (removing a pre-existing destination or creating the
symlink) is recovered by falling back to the byte copy; a non-`OSError`
exception from that block, a failure of the copy fallback itself, and
errors outside the step (root directory creation, source enumeration)
propagate and abort the run. -/
theorem claim_oserror_fallback_policy (env : FsEnv) (fs : OutFS)
    (dst : OutPath) (c : Bytes) :
    (tryErr env fs dst = none → linkOrCopy env fs dst c = .ok (setFile fs dst c))
    ∧ (tryErr env fs dst = some .osError → env.copyErr dst = none →
        linkOrCopy env fs dst c = .ok (setFile fs dst c))
    ∧ (∀ e, tryErr env fs dst = some .osError → env.copyErr dst = some e →
        linkOrCopy env fs dst c = .error e)
    ∧ (tryErr env fs dst = some .otherError →
        linkOrCopy env fs dst c = .error .otherError)
    ∧ (∀ (src : List SrcEntry) (fs0 : OutFS) (e : PyErr),
        env.mkdirErr .renderingRoot = some e →
        convert_dataset env src fs0 = .error e)
    ∧ (∀ (src : List SrcEntry) (fs0 : OutFS) (e : PyErr),
        env.mkdirErr .renderingRoot = none → env.mkdirErr .voxelRoot = none →
        env.listErr = some e → convert_dataset env src fs0 = .error e) := by
  refine ⟨?_, ?_, ?_, ?_, ?_, ?_⟩
  · intro ht
    rw [linkOrCopy_char, ht]
  · intro ht hc
    rw [linkOrCopy_char, ht]
    simp only []
    rw [hc]
  · intro e ht hc
    rw [linkOrCopy_char, ht]
    simp only []
    rw [hc]
  · intro ht
    rw [linkOrCopy_char, ht]
  · intro src fs0 e he
    unfold convert_dataset
    rw [mkdirP, he]
  · intro src fs0 e h1 h2 he
    unfold convert_dataset
    rw [mkdirP, h1]
    simp only []
    rw [mkdirP, h2]
    simp only []
    rw [he]

/-- C7 counterexample: an `OSError` raised by `unlink` (not by
`os.symlink`, whose oracle never raises here) is recovered locally — the
run completes, converts the model and leaves the source bytes at the
destination via the copy fallback — refuting the claim that every
exception other than a symlink-creation `OSError` propagates and aborts
the run. -/
theorem c7_counterexample :
    ((convert_dataset c7env c7src c7fs).toOption.map
      (fun st => (st.converted,
        lookupFile st.fs (OutPath.rendering "A" "0.png")))) = some (1, some [1])
    ∧ c7env.unlinkErr (OutPath.rendering "A" "0.png") = some PyErr.osError
    ∧ c7env.symlinkErr = fun _ => none := by
  refine ⟨by decide, by decide, rfl⟩

theorem claim_counts_partition_witness :
    convert_dataset cleanEnv wsrc emptyFS = Except.ok wst ∧
      wst.converted + wst.skipped = (modelDirsOf wsrc).length :=
  ⟨by rfl, claim_counts_partition cleanEnv wsrc emptyFS wst (by rfl)⟩

theorem claim_convertible_model_outputs_witness :
    (OutPath.rendering "A" "0.png", ([1] : Bytes)) ∈ wst.fs.files ∧
    OutDir.voxelModel "A" ∈ wst.fs.dirs ∧
    wst.converted = 1 :=
  have hh := claim_convertible_model_outputs cleanEnv wsrc wst wA
    ⟨"m.solid.binvox", [7]⟩ (by rfl) (by decide) (by decide) (by rfl) (by rfl)
    (by decide)
  ⟨(hh.2.1 "0.png" [1]).mpr ⟨⟨"0.png", [1]⟩, by decide, rfl, rfl⟩,
   hh.1.2, hh.2.2.2.trans (by decide)⟩

theorem claim_skipped_model_no_outputs_witness :
    wst.skipped = 2 ∧
    lookupFile wst.fs (OutPath.rendering "B" "0.png") = none ∧
    OutDir.voxelModel "B" ∉ wst.fs.dirs ∧
    ConvEvent.skip 2 3 "B" "no binvox file" ∈ wst.events :=
  have hh := claim_skipped_model_no_outputs cleanEnv wsrc wst 1 wB (by rfl)
    (by decide) (by decide) (by decide)
  ⟨hh.1.trans (by decide), hh.2.1 "0.png", hh.2.2.2.2.1, hh.2.2.2.2.2.1⟩

theorem claim_missing_models_dir_witness :
    processModel cleanEnv 5 0 (ConvState.mk emptyFS 0 0 []) wD =
      Except.ok (ConvState.mk emptyFS 0 1 [ConvEvent.skip 1 5 "D" "no binvox file"])
    ∧ ∀ mf : List SrcFile, (∀ f ∈ mf, pathSuffix f.name ≠ ".binvox") →
        processModel cleanEnv 5 0 (ConvState.mk emptyFS 0 0 [])
          { wD with hasModels := true, modelsFiles := mf } =
          processModel cleanEnv 5 0 (ConvState.mk emptyFS 0 0 []) wD :=
  claim_missing_models_dir cleanEnv 5 0 (ConvState.mk emptyFS 0 0 []) wD
    (by rfl) (by rfl)

theorem claim_rerun_idempotent_witness :
    ∃ st2, convert_dataset cleanEnv wsrc wst.fs = Except.ok st2 ∧
      ∀ p, lookupFile st2.fs p = lookupFile wst.fs p :=
  claim_rerun_idempotent cleanEnv wsrc emptyFS wst (by rfl) (fun _ => rfl)

theorem claim_progress_at_50_iff_converted_witness :
    (∃ c, ConvEvent.progress 1 (modelDirsOf wsrc).length c ∈ wst.events) ↔
      (1 % 50 = 0 ∧ convertible wA = true) :=
  claim_progress_at_50_iff_converted cleanEnv wsrc emptyFS wst 0 wA
    (by rfl) (by decide)

theorem claim_oserror_fallback_policy_witness :
    tryErr c7env c7fs (OutPath.rendering "A" "0.png") = some PyErr.osError ∧
    linkOrCopy c7env c7fs (OutPath.rendering "A" "0.png") [1] =
      Except.ok (setFile c7fs (OutPath.rendering "A" "0.png") [1]) :=
  ⟨by decide,
   (claim_oserror_fallback_policy c7env c7fs
      (OutPath.rendering "A" "0.png") [1]).2.1 (by decide) (by decide)⟩

end ConvertDataset

namespace ValidateLib

variable {Raw Img Emb H Out Lbl OutA LblA : Type}

theorem viewLoop_fst (M : VModel Raw Img Emb H Out Lbl OutA LblA) (dev : String) :
    ∀ (vs : List Raw) (h : Hidden H),
      (viewLoop M dev vs h).1 = viewFold M dev h vs := by
  intro vs
  induction vs with
  | nil => intro h; rfl
  | cons r rest ih =>
    intro h
    show (viewLoop M dev rest _).1 = _
    rw [ih]
    rfl

theorem batchStep_fst (M : VModel Raw Img Emb H Out Lbl OutA LblA) (dev : String)
    (h : Hidden H) (b : VBatch Raw Lbl) :
    (batchStep M dev h b).1 = batchHidden M dev h b := by
  show (viewLoop M dev b.imgs (detachPair h)).1 = _
  rw [viewLoop_fst]
  rfl

theorem batchStep_loss (M : VModel Raw Img Emb H Out Lbl OutA LblA) (dev : String)
    (h : Hidden H) (b : VBatch Raw Lbl) :
    (batchStep M dev h b).2.1 = batchLoss M dev h b := by
  show M.nll (M.decoder (viewLoop M dev b.imgs (detachPair h)).1.1)
      (M.lblTo b.label dev) = _
  rw [viewLoop_fst]
  rfl

theorem batchStep_iou (M : VModel Raw Img Emb H Out Lbl OutA LblA) (dev : String)
    (h : Hidden H) (b : VBatch Raw Lbl) :
    (batchStep M dev h b).2.2.1 = batchIou M dev h b := by
  show M.iouStats (M.outNp (M.texp
      (M.decoder (viewLoop M dev b.imgs (detachPair h)).1.1)))
      (M.lblNp b.label) (2/5 : ℚ) 5 = _
  rw [viewLoop_fst]
  rfl

theorem batchEvents_eq (M : VModel Raw Img Emb H Out Lbl OutA LblA) (dev : String)
    (h : Hidden H) (b : VBatch Raw Lbl) :
    batchEvents M dev h b =
      (viewLoop M dev b.imgs (detachPair h)).2 ++
        [VEvent.decCall (batchHidden M dev h b).1] := by
  show (viewLoop M dev b.imgs (detachPair h)).2 ++
      [VEvent.decCall (viewLoop M dev b.imgs (detachPair h)).1.1] = _
  rw [viewLoop_fst]
  rfl

theorem runBatches_losses (M : VModel Raw Img Emb H Out Lbl OutA LblA) (dev : String) :
    ∀ (bs : List (VBatch Raw Lbl)) (h : Hidden H),
      (runBatches M dev bs h).2.1 = lossList M dev bs h := by
  intro bs
  induction bs with
  | nil => intro h; rfl
  | cons b rest ih =>
    intro h
    show (batchStep M dev h b).2.1 :: (runBatches M dev rest (batchStep M dev h b).1).2.1 = _
    rw [ih, batchStep_loss, batchStep_fst]
    rfl

theorem runBatches_ious (M : VModel Raw Img Emb H Out Lbl OutA LblA) (dev : String) :
    ∀ (bs : List (VBatch Raw Lbl)) (h : Hidden H),
      (runBatches M dev bs h).2.2.1 = iouList M dev bs h := by
  intro bs
  induction bs with
  | nil => intro h; rfl
  | cons b rest ih =>
    intro h
    show (batchStep M dev h b).2.2.1 :: (runBatches M dev rest (batchStep M dev h b).1).2.2.1 = _
    rw [ih, batchStep_iou, batchStep_fst]
    rfl

theorem runBatches_hidden (M : VModel Raw Img Emb H Out Lbl OutA LblA) (dev : String) :
    ∀ (bs : List (VBatch Raw Lbl)) (h : Hidden H),
      (runBatches M dev bs h).1 = bs.foldl (batchHidden M dev) h := by
  intro bs
  induction bs with
  | nil => intro h; rfl
  | cons b rest ih =>
    intro h
    show (runBatches M dev rest (batchStep M dev h b).1).1 = _
    rw [ih, batchStep_fst]
    rfl

theorem runBatches_traces (M : VModel Raw Img Emb H Out Lbl OutA LblA) (dev : String) :
    ∀ (bs : List (VBatch Raw Lbl)) (h0 : Hidden H) (i : Nat) (b : VBatch Raw Lbl),
      bs[i]? = some b →
      (runBatches M dev bs h0).2.2.2[i]? =
        some (batchEvents M dev ((bs.take i).foldl (batchHidden M dev) h0) b) := by
  intro bs
  induction bs with
  | nil => intro h0 i b hb; simp at hb
  | cons b0 rest ih =>
    intro h0 i b hb
    cases i with
    | zero =>
      rw [List.getElem?_cons_zero] at hb
      cases hb
      show (batchEvents M dev h0 b0 ::
        (runBatches M dev rest (batchStep M dev h0 b0).1).2.2.2)[0]? = _
      rw [List.getElem?_cons_zero]
      rfl
    | succ i =>
      rw [List.getElem?_cons_succ] at hb
      show (batchEvents M dev h0 b0 :: (runBatches M dev rest (batchStep M dev h0 b0).1).2.2.2)[i+1]? = _
      rw [List.getElem?_cons_succ, ih _ i b hb, batchStep_fst]
      rfl

theorem lossList_length (M : VModel Raw Img Emb H Out Lbl OutA LblA) (dev : String) :
    ∀ (bs : List (VBatch Raw Lbl)) (h : Hidden H),
      (lossList M dev bs h).length = bs.length := by
  intro bs
  induction bs with
  | nil => intro h; rfl
  | cons b rest ih => intro h; show _ + 1 = _; rw [ih]; rfl

theorem iouList_length (M : VModel Raw Img Emb H Out Lbl OutA LblA) (dev : String) :
    ∀ (bs : List (VBatch Raw Lbl)) (h : Hidden H),
      (iouList M dev bs h).length = bs.length := by
  intro bs
  induction bs with
  | nil => intro h; rfl
  | cons b rest ih => intro h; show _ + 1 = _; rw [ih]; rfl

theorem validate_eq_means (M : VModel Raw Img Emb H Out Lbl OutA LblA)
    (loader : VLoader Raw Lbl) (device : Option String) :
    validate M loader device =
      (npMean (lossList M (device.getD "cpu") loader.batches
          (initHidden M loader.batchSize (device.getD "cpu"))),
       npMean (iouList M (device.getD "cpu") loader.batches
          (initHidden M loader.batchSize (device.getD "cpu")))) := by
  show (npMean (runBatches M (device.getD "cpu") loader.batches
        (initHidden M loader.batchSize (device.getD "cpu"))).2.1,
      npMean (runBatches M (device.getD "cpu") loader.batches
        (initHidden M loader.batchSize (device.getD "cpu"))).2.2.1) = _
  rw [runBatches_losses, runBatches_ious]

theorem hiddenBefore_succ (M : VModel Raw Img Emb H Out Lbl OutA LblA)
    (dev : String) (B : Nat) (bs : List (VBatch Raw Lbl)) (i : Nat)
    (b : VBatch Raw Lbl) (hb : bs[i]? = some b) :
    hiddenBefore M dev B bs (i + 1) =
      batchHidden M dev (hiddenBefore M dev B bs i) b := by
  unfold hiddenBefore
  rw [List.take_succ, hb, List.foldl_append]
  rfl

theorem viewLoop_trace_length (M : VModel Raw Img Emb H Out Lbl OutA LblA)
    (dev : String) :
    ∀ (vs : List Raw) (h : Hidden H),
      (viewLoop M dev vs h).2.length = 2 * vs.length := by
  intro vs
  induction vs with
  | nil => intro h; rfl
  | cons r rest ih =>
    intro h
    show ((VEvent.encCall _ : VEvent Img Emb H) :: VEvent.rnnCall _ _ ::
      (viewLoop M dev rest _).2).length = _
    rw [List.length_cons, List.length_cons, ih, List.length_cons]
    omega

theorem viewLoop_trace_counts (M : VModel Raw Img Emb H Out Lbl OutA LblA)
    (dev : String) :
    ∀ (vs : List Raw) (h : Hidden H),
      ((viewLoop M dev vs h).2.countP isEncEv = vs.length ∧
       (viewLoop M dev vs h).2.countP isRnnEv = vs.length ∧
       (viewLoop M dev vs h).2.countP isDecEv = 0) := by
  intro vs
  induction vs with
  | nil => intro h; exact ⟨rfl, rfl, rfl⟩
  | cons r rest ih =>
    intro h
    have hr := ih (M.convrnn (M.encoder (M.squeezeTo r dev)) h)
    refine ⟨?_, ?_, ?_⟩
    · show List.countP isEncEv
        ((VEvent.encCall (M.squeezeTo r dev) : VEvent Img Emb H) ::
          VEvent.rnnCall (M.encoder (M.squeezeTo r dev)) h ::
          (viewLoop M dev rest (M.convrnn (M.encoder (M.squeezeTo r dev)) h)).2) =
        (r :: rest).length
      rw [List.countP_cons, List.countP_cons, hr.1, List.length_cons]
      simp [isEncEv]
    · show List.countP isRnnEv
        ((VEvent.encCall (M.squeezeTo r dev) : VEvent Img Emb H) ::
          VEvent.rnnCall (M.encoder (M.squeezeTo r dev)) h ::
          (viewLoop M dev rest (M.convrnn (M.encoder (M.squeezeTo r dev)) h)).2) =
        (r :: rest).length
      rw [List.countP_cons, List.countP_cons, hr.2.1, List.length_cons]
      simp [isRnnEv, isEncEv]
    · show List.countP isDecEv
        ((VEvent.encCall (M.squeezeTo r dev) : VEvent Img Emb H) ::
          VEvent.rnnCall (M.encoder (M.squeezeTo r dev)) h ::
          (viewLoop M dev rest (M.convrnn (M.encoder (M.squeezeTo r dev)) h)).2) = 0
      rw [List.countP_cons, List.countP_cons, hr.2.2]
      simp [isDecEv]

theorem viewLoop_trace_get (M : VModel Raw Img Emb H Out Lbl OutA LblA)
    (dev : String) :
    ∀ (vs : List Raw) (h : Hidden H) (v : Nat) (r : Raw), vs[v]? = some r →
      (viewLoop M dev vs h).2[2 * v]? =
        some (.encCall (M.squeezeTo r dev)) ∧
      (viewLoop M dev vs h).2[2 * v + 1]? =
        some (.rnnCall (M.encoder (M.squeezeTo r dev))
          (viewFold M dev h (vs.take v))) := by
  intro vs
  induction vs with
  | nil => intro h v r hr; simp at hr
  | cons r0 rest ih =>
    intro h v r hr
    cases v with
    | zero =>
      rw [List.getElem?_cons_zero] at hr
      cases hr
      constructor
      · simp [viewLoop]
      · simp [viewLoop, viewFold]
    | succ v =>
      rw [List.getElem?_cons_succ] at hr
      have h2 : 2 * (v + 1) = 2 * v + 1 + 1 := by omega
      have ihx := ih (M.convrnn (M.encoder (M.squeezeTo r0 dev)) h) v r hr
      constructor
      · show ((VEvent.encCall _ : VEvent Img Emb H) :: VEvent.rnnCall _ _ ::
          (viewLoop M dev rest _).2)[2 * (v+1)]? = _
        rw [h2, List.getElem?_cons_succ, List.getElem?_cons_succ]
        exact ihx.1
      · show ((VEvent.encCall _ : VEvent Img Emb H) :: VEvent.rnnCall _ _ ::
          (viewLoop M dev rest _).2)[2 * (v+1) + 1]? = _
        rw [h2, List.getElem?_cons_succ, List.getElem?_cons_succ]
        exact ihx.2

theorem viewFold_take_succ (M : VModel Raw Img Emb H Out Lbl OutA LblA)
    (dev : String) (h : Hidden H) (vs : List Raw) (v : Nat) (r : Raw)
    (hr : vs[v]? = some r) :
    viewFold M dev h (vs.take (v + 1)) =
      M.convrnn (M.encoder (M.squeezeTo r dev)) (viewFold M dev h (vs.take v)) := by
  unfold viewFold
  rw [List.take_succ, hr, List.foldl_append]
  rfl

/-- C4: for a nonempty batch iterator, `validate` returns exactly the pair
of arithmetic means of the per-batch losses `L_1..L_N` and per-batch IOUs
`I_1..I_N`, where `I_i` is component 5 of the IOU metric evaluated at
occupancy threshold 0.4 on the exponentiated decoder output (as recorded
in `batchIou`/`iouList`). -/
theorem claim_validate_returns_means (M : VModel Raw Img Emb H Out Lbl OutA LblA)
    (loader : VLoader Raw Lbl) (device : Option String)
    (hne : loader.batches ≠ []) :
    validate M loader device =
      ((lossList M (device.getD "cpu") loader.batches
          (initHidden M loader.batchSize (device.getD "cpu"))).sum /
        (loader.batches.length : ℚ),
       (iouList M (device.getD "cpu") loader.batches
          (initHidden M loader.batchSize (device.getD "cpu"))).sum /
        (loader.batches.length : ℚ))
    ∧ (lossList M (device.getD "cpu") loader.batches
        (initHidden M loader.batchSize (device.getD "cpu"))).length =
        loader.batches.length
    ∧ (iouList M (device.getD "cpu") loader.batches
        (initHidden M loader.batchSize (device.getD "cpu"))).length =
        loader.batches.length
    ∧ 0 < loader.batches.length := by
  refine ⟨?_, lossList_length M _ _ _, iouList_length M _ _ _,
    List.length_pos.mpr hne⟩
  rw [validate_eq_means]
  unfold npMean
  rw [lossList_length, iouList_length]

/-- C3: for the batch at index `i` with `V` views, the validator's call
trace for that batch (as produced by the instrumented run) consists of
exactly `V` encoder calls and `V` recurrent-updater calls, interleaved in
view order `0..V-1`, followed by exactly one decoder call; updater call
`v` receives the hidden state accumulated over the previous `v` views
(the detached carried-in state for view 0), and the decoder call receives
the first component of the hidden state produced by view `V-1`. -/
theorem claim_validate_call_structure (M : VModel Raw Img Emb H Out Lbl OutA LblA)
    (loader : VLoader Raw Lbl) (device : Option String) (i : Nat)
    (b : VBatch Raw Lbl) (hb : loader.batches[i]? = some b) :
    ∀ dev hB evs, dev = device.getD "cpu" →
      hB = hiddenBefore M dev loader.batchSize loader.batches i →
      evs = batchEvents M dev hB b →
      (runBatches M dev loader.batches
          (initHidden M loader.batchSize dev)).2.2.2[i]? = some evs
      ∧ evs.length = 2 * b.imgs.length + 1
      ∧ (∀ (v : Nat) (r : Raw), b.imgs[v]? = some r →
          evs[2 * v]? = some (.encCall (M.squeezeTo r dev))
          ∧ evs[2 * v + 1]? = some (.rnnCall (M.encoder (M.squeezeTo r dev))
              (viewFold M dev (detachPair hB) (b.imgs.take v)))
          ∧ viewFold M dev (detachPair hB) (b.imgs.take (v + 1)) =
              M.convrnn (M.encoder (M.squeezeTo r dev))
                (viewFold M dev (detachPair hB) (b.imgs.take v)))
      ∧ viewFold M dev (detachPair hB) (b.imgs.take 0) = detachPair hB
      ∧ evs[2 * b.imgs.length]? =
          some (.decCall (viewFold M dev (detachPair hB) b.imgs).1)
      ∧ evs.countP isEncEv = b.imgs.length
      ∧ evs.countP isRnnEv = b.imgs.length
      ∧ evs.countP isDecEv = 1 := by
  intro dev hB evs hdev hhB hevs
  subst hdev
  subst hhB
  subst hevs
  have hVlen : ((viewLoop M (device.getD "cpu") b.imgs (detachPair
      (hiddenBefore M (device.getD "cpu") loader.batchSize loader.batches i))).2).length =
      2 * b.imgs.length :=
    viewLoop_trace_length M _ b.imgs _
  refine ⟨?_, ?_, ?_, rfl, ?_, ?_, ?_, ?_⟩
  · exact runBatches_traces M _ loader.batches _ i b hb
  · rw [batchEvents_eq, List.length_append, hVlen]
    rfl
  · intro v r hr
    have hv : v < b.imgs.length := (List.getElem?_eq_some.mp hr).1
    have htr := viewLoop_trace_get M (device.getD "cpu") b.imgs
      (detachPair (hiddenBefore M (device.getD "cpu") loader.batchSize
        loader.batches i)) v r hr
    refine ⟨?_, ?_, ?_⟩
    · rw [batchEvents_eq, List.getElem?_append_left (by rw [hVlen]; omega)]
      exact htr.1
    · rw [batchEvents_eq, List.getElem?_append_left (by rw [hVlen]; omega)]
      exact htr.2
    · exact viewFold_take_succ M _ _ b.imgs v r hr
  · rw [batchEvents_eq, ← hVlen]
    exact List.getElem?_concat_length _ _
  · rw [batchEvents_eq, List.countP_append]
    rw [(viewLoop_trace_counts M _ b.imgs _).1]
    simp [isEncEv]
  · rw [batchEvents_eq, List.countP_append]
    rw [(viewLoop_trace_counts M _ b.imgs _).2.1]
    simp [isRnnEv]
  · rw [batchEvents_eq, List.countP_append]
    rw [(viewLoop_trace_counts M _ b.imgs _).2.2]
    simp [isDecEv]

/-- C8: validation starts from a hidden-state pair of all-zero tensors of
shape (batch size, 128, 4, 4, 4) placed on the designated device (the CPU
when no device is given); at the start of every batch both components are
detached — so no gradient history crosses a batch boundary — while their
numeric values (and shapes) carry over unchanged from the previous batch,
and the run threads exactly these hidden states through all batches. -/
theorem claim_validate_hidden_state (M : VModel Raw Img Emb H Out Lbl OutA LblA)
    (loader : VLoader Raw Lbl) (device : Option String) :
    ∀ dev h0, dev = device.getD "cpu" →
      h0 = initHidden M loader.batchSize dev →
      (h0.1.shape = [loader.batchSize, 128, 4, 4, 4]
       ∧ h0.2.shape = [loader.batchSize, 128, 4, 4, 4]
       ∧ h0.1.device = dev ∧ h0.2.device = dev
       ∧ h0.1.val = M.hzero ∧ h0.2.val = M.hzero
       ∧ h0.1.hasGrad = false ∧ h0.2.hasGrad = false)
      ∧ (device = none → dev = "cpu")
      ∧ (∀ (i : Nat) (b : VBatch Raw Lbl), loader.batches[i]? = some b →
          hiddenBefore M dev loader.batchSize loader.batches (i + 1) =
            viewFold M dev
              (detachPair (hiddenBefore M dev loader.batchSize loader.batches i))
              b.imgs
          ∧ (detachPair (hiddenBefore M dev loader.batchSize loader.batches i)).1.hasGrad
              = false
          ∧ (detachPair (hiddenBefore M dev loader.batchSize loader.batches i)).2.hasGrad
              = false
          ∧ (detachPair (hiddenBefore M dev loader.batchSize loader.batches i)).1.val
              = (hiddenBefore M dev loader.batchSize loader.batches i).1.val
          ∧ (detachPair (hiddenBefore M dev loader.batchSize loader.batches i)).2.val
              = (hiddenBefore M dev loader.batchSize loader.batches i).2.val
          ∧ (detachPair (hiddenBefore M dev loader.batchSize loader.batches i)).1.shape
              = (hiddenBefore M dev loader.batchSize loader.batches i).1.shape
          ∧ (detachPair (hiddenBefore M dev loader.batchSize loader.batches i)).2.shape
              = (hiddenBefore M dev loader.batchSize loader.batches i).2.shape)
      ∧ (runBatches M dev loader.batches h0).1 =
          hiddenBefore M dev loader.batchSize loader.batches
            loader.batches.length := by
  intro dev h0 hdev hh0
  subst hdev
  subst hh0
  refine ⟨⟨rfl, rfl, rfl, rfl, rfl, rfl, rfl, rfl⟩, ?_, ?_, ?_⟩
  · rintro rfl; rfl
  · intro i b hb
    refine ⟨?_, rfl, rfl, rfl, rfl, rfl, rfl⟩
    rw [hiddenBefore_succ M _ _ loader.batches i b hb]
    rfl
  · rw [runBatches_hidden]
    unfold hiddenBefore
    rw [List.take_length]

theorem claim_validate_returns_means_witness :
    wloader.batches ≠ [] ∧
    validate wM wloader none =
      ((lossList wM "cpu" wloader.batches (initHidden wM 4 "cpu")).sum / 2,
       (iouList wM "cpu" wloader.batches (initHidden wM 4 "cpu")).sum / 2) :=
  have hh := claim_validate_returns_means wM wloader none (by decide)
  ⟨by decide, hh.1⟩

theorem claim_validate_call_structure_witness :
    wloader.batches[0]? = some ⟨[10, 20], 7⟩ ∧
    (batchEvents wM "cpu" (hiddenBefore wM "cpu" 4 wloader.batches 0)
        ⟨[10, 20], 7⟩).length = 5 ∧
    (batchEvents wM "cpu" (hiddenBefore wM "cpu" 4 wloader.batches 0)
        ⟨[10, 20], 7⟩).countP isEncEv = 2 ∧
    (batchEvents wM "cpu" (hiddenBefore wM "cpu" 4 wloader.batches 0)
        ⟨[10, 20], 7⟩).countP isDecEv = 1 :=
  have hh := claim_validate_call_structure wM wloader none 0 ⟨[10, 20], 7⟩ rfl
    "cpu" (hiddenBefore wM "cpu" 4 wloader.batches 0)
    (batchEvents wM "cpu" (hiddenBefore wM "cpu" 4 wloader.batches 0)
      ⟨[10, 20], 7⟩) rfl rfl rfl
  ⟨rfl, hh.2.1, hh.2.2.2.2.2.1, hh.2.2.2.2.2.2.2⟩

theorem claim_validate_hidden_state_witness :
    (initHidden wM 4 "cpu").1.shape = [4, 128, 4, 4, 4] ∧
    (initHidden wM 4 "cpu").1.hasGrad = false ∧
    (runBatches wM "cpu" wloader.batches (initHidden wM 4 "cpu")).1 =
      hiddenBefore wM "cpu" 4 wloader.batches 2 :=
  have hh := claim_validate_hidden_state wM wloader none "cpu"
    (initHidden wM 4 "cpu") rfl rfl
  ⟨hh.1.1, hh.1.2.2.2.2.2.2.1, hh.2.2.2⟩

end ValidateLib

